import Mathlib

/-!
Verification of the Event-Aggregation-Platform scraping core.

Shallow embedding of the repository's TypeScript code:
* `src/src/scraping/StatusManager.ts` (status lifecycle, reconciliation),
* `src/src/scraping/ScraperEngine.ts` (per-source scraping, resilience),
* the `ScheduledScraper` cycle scheduler,
* the `CircuitBreaker` utility,
* the `ScrapingLog` mongoose schema (run-log persistence rules).

External effects (HTTP fetches, the Mongo document store, wall-clock time)
are made explicit: the store is a list of documents threaded through each
operation, `Date.now()` / `new Date()` become explicit `Int` millisecond
parameters, and the network is an environment function from a source
configuration to its fetch outcome.
-/

namespace EventAgg

/-- Event lifecycle status, embedding `enum EventStatus` from `src/types`
(`"new" | "updated" | "inactive" | "imported"`). -/
inductive EventStatus
  | new
  | updated
  | inactive
  | imported
  deriving DecidableEq, Repr

/-- String value of each enum member, as in the TypeScript enum. -/
def statusToString : EventStatus → String
  | .new => "new"
  | .updated => "updated"
  | .inactive => "inactive"
  | .imported => "imported"

/-- The `validTransitions` record literal inside
`StatusManager.validateStatusTransition` (StatusManager.ts lines 320-329). -/
def allowedTransitions : EventStatus → List EventStatus
  | .new => [.updated, .inactive, .imported]
  | .updated => [.inactive, .imported]
  | .inactive => [.imported]
  | .imported => []

/-- Return type of `validateStatusTransition`: `{ valid: boolean; reason?: string }`. -/
structure ValidationResult where
  valid : Bool
  reason : Option String
  deriving DecidableEq, Repr

/-- The template string built when a transition is rejected
(StatusManager.ts line 339). -/
def mkInvalidReason (c n : EventStatus) : String :=
  "Invalid transition from " ++ statusToString c ++ " to " ++ statusToString n ++
    (". Allowed transitions: " ++
      String.intercalate ", " ((allowedTransitions c).map statusToString))

/-- `StatusManager.validateStatusTransition` (StatusManager.ts lines 315-341). -/
def validateStatusTransition (c n : EventStatus) : ValidationResult :=
  if (allowedTransitions c).contains n then
    { valid := true, reason := none }
  else
    { valid := false, reason := some (mkInvalidReason c n) }

/-- Modelled from the spec: the transition table of spec section 3
(`new → {updated, inactive, imported}`, `updated → {inactive, imported}`,
`inactive → {imported}`, `imported → {}`), written independently of the
code so that `validateStatusTransition` can be compared against it. -/
def specTransitionTable : EventStatus → EventStatus → Bool
  | .new, .updated => true
  | .new, .inactive => true
  | .new, .imported => true
  | .updated, .inactive => true
  | .updated, .imported => true
  | .inactive, .imported => true
  | _, _ => false

/-- C2: `validateStatusTransition` returns valid exactly on the pairs of the
spec's transition table, and on every other pair it returns invalid with a
reason string that mentions both the current and the requested status. -/
theorem validateStatusTransition_matches_spec_table (c n : EventStatus) :
    ((validateStatusTransition c n).valid = true ↔ specTransitionTable c n = true) ∧
    ((validateStatusTransition c n).valid = false →
      ∃ pre mid post,
        (validateStatusTransition c n).reason =
          some (pre ++ statusToString c ++ mid ++ statusToString n ++ post)) := by
  constructor
  · cases c <;> cases n <;> decide
  · intro h
    refine ⟨"Invalid transition from ", " to ",
      ". Allowed transitions: " ++
        String.intercalate ", " ((allowedTransitions c).map statusToString), ?_⟩
    by_cases hc : n ∈ allowedTransitions c
    · simp [validateStatusTransition, hc] at h
    · simp [validateStatusTransition, hc, mkInvalidReason]

/-- Witness for C2 at a concrete invalid pair. -/
theorem validateStatusTransition_matches_spec_table_witness :
    (validateStatusTransition .imported .updated).valid = false ∧
    ∃ pre mid post,
      (validateStatusTransition .imported .updated).reason =
        some (pre ++ statusToString .imported ++ mid ++ statusToString .updated ++ post) :=
  ⟨by decide,
    (validateStatusTransition_matches_spec_table .imported .updated).2 (by decide)⟩

/-! ## Reconciler data model -/

/-- `EventData` from `src/types`: one freshly scraped record. `Date` values
are embedded as `Int` epoch milliseconds (the code compares dates via
`getTime()`); optional string fields become `Option String`. -/
structure EventData where
  title : String
  dateTime : Int
  venueName : String
  venueAddress : Option String
  city : String
  description : String
  categoryTags : List String
  imageUrl : Option String
  sourceWebsite : String
  originalEventUrl : String
  lastScrapedAt : Int
  deriving DecidableEq, Repr

/-- `IEvent` from `src/types`: the persisted mongoose document. `_id` is
embedded as a `Nat` (`id`), `importedBy : Types.ObjectId` as a `String`. -/
structure IEvent where
  id : Nat
  title : String
  dateTime : Int
  venueName : String
  venueAddress : Option String
  city : String
  description : String
  categoryTags : List String
  imageUrl : Option String
  sourceWebsite : String
  originalEventUrl : String
  status : EventStatus
  lastScrapedAt : Int
  importedAt : Option Int
  importedBy : Option String
  importNotes : Option String
  deriving DecidableEq, Repr

/-- `StatusChangeLog` from StatusManager.ts lines 8-15; the `metadata`
record is flattened into its three possible keys. -/
structure StatusChangeLog where
  eventId : Nat
  previousStatus : EventStatus
  newStatus : EventStatus
  reason : String
  timestamp : Int
  metaSource : Option String := none
  metaUserId : Option String := none
  metaImportNotes : Option String := none
  deriving DecidableEq, Repr

/-- `ChangeDetectionResult` from StatusManager.ts lines 20-25. -/
structure ChangeDetectionResult where
  newEvents : List EventData
  updatedEvents : List (IEvent × EventData)
  inactiveEvents : List IEvent
  statusChanges : List StatusChangeLog
  deriving DecidableEq, Repr

/-- The document store, abstracted as the ordered list of persisted events
(`Event.find` with no filter); `insert` appends, `doc.save()` replaces the
document with the same `_id`. -/
abbrev Store := List IEvent

/-- `Event.find({ sourceWebsite })` (StatusManager.ts line 76). -/
def findBySource (store : Store) (src : String) : List IEvent :=
  store.filter (fun e => e.sourceWebsite == src)

/-- `doc.save()` on an existing document: replace the store entry whose
`_id` matches. -/
def saveById (store : Store) (i : Nat) (doc : IEvent) : Store :=
  store.map (fun e => if e.id == i then doc else e)

/-- Lookup in a JS `Map` built by `forEach(map.set(key, ...))` over a list:
a later entry with the same key overwrites an earlier one
(StatusManager.ts lines 87-94), so lookup returns the last matching entry. -/
def lookupUrl : List IEvent → String → Option IEvent
  | [], _ => none
  | e :: rest, url =>
    match lookupUrl rest url with
    | some x => some x
    | none => if e.originalEventUrl == url then some e else none

/-- `scrapedEventMap.has(url)` for the map built from the fresh batch. -/
def scrapedHas (scraped : List EventData) (url : String) : Bool :=
  scraped.any (fun s => s.originalEventUrl == url)

/-- `existingValue?.toString() || ""` — `undefined` collapses to `""`. -/
def optStr : Option String → String
  | some s => s
  | none => ""

/-- The category-tag comparison of `detectEventChanges` (StatusManager.ts
lines 202-209): equal length and pointwise equal. -/
def tagsMatch (a b : List String) : Bool :=
  a.length == b.length && (List.zip a b).all (fun p => p.1 == p.2)

/-- `StatusManager.detectEventChanges` (StatusManager.ts lines 167-212):
compare title, dateTime (by instant), venueName, venueAddress, description,
imageUrl (string comparison with `undefined → ""`), then the tag list. -/
def detectEventChanges (existing : IEvent) (scraped : EventData) : Bool :=
  existing.title != scraped.title ||
  existing.dateTime != scraped.dateTime ||
  existing.venueName != scraped.venueName ||
  optStr existing.venueAddress != optStr scraped.venueAddress ||
  existing.description != scraped.description ||
  optStr existing.imageUrl != optStr scraped.imageUrl ||
  !tagsMatch existing.categoryTags scraped.categoryTags

/-- The first loop of `processScrapedEvents` (StatusManager.ts lines
97-127): classify each fresh record as new (no existing match) or updated
(match with field changes); an unchanged match has only its
`lastScrapedAt` refreshed and saved on the spot. `em` is the snapshot map
of existing events built before the loop. Returns
(newEvents, updatedEvents, store after the refresh saves). -/
def scanScraped (em : List IEvent) (now : Int) :
    List EventData → Store → List EventData × List (IEvent × EventData) × Store
  | [], store => ([], [], store)
  | s :: rest, store =>
    match lookupUrl em s.originalEventUrl with
    | none =>
      let r := scanScraped em now rest store
      (s :: r.1, r.2.1, r.2.2)
    | some e =>
      if detectEventChanges e s then
        let r := scanScraped em now rest store
        (r.1, (e, s) :: r.2.1, r.2.2)
      else
        scanScraped em now rest (saveById store e.id { e with lastScrapedAt := now })

/-- `new Event({ ...newEventData, status: EventStatus.NEW })` (StatusManager.ts
lines 223-226): a fresh document from scraped data, with a fresh `_id`. -/
def newFromData (d : EventData) (i : Nat) : IEvent :=
  { id := i, title := d.title, dateTime := d.dateTime, venueName := d.venueName,
    venueAddress := d.venueAddress, city := d.city, description := d.description,
    categoryTags := d.categoryTags, imageUrl := d.imageUrl,
    sourceWebsite := d.sourceWebsite, originalEventUrl := d.originalEventUrl,
    status := .new, lastScrapedAt := d.lastScrapedAt,
    importedAt := none, importedBy := none, importNotes := none }

/-- `Object.assign(existing, { ...updated, status: UPDATED, lastScrapedAt })`
(StatusManager.ts lines 255-259): every `EventData` field is overwritten
from the scraped record, status becomes `updated`, `lastScrapedAt` is
refreshed; `_id` and the import fields are untouched. -/
def assignUpdated (e : IEvent) (u : EventData) (now : Int) : IEvent :=
  { e with title := u.title, dateTime := u.dateTime, venueName := u.venueName,
           venueAddress := u.venueAddress, city := u.city,
           description := u.description, categoryTags := u.categoryTags,
           imageUrl := u.imageUrl, sourceWebsite := u.sourceWebsite,
           originalEventUrl := u.originalEventUrl,
           status := .updated, lastScrapedAt := now }

/-- First loop of `applyStatusChanges` (StatusManager.ts lines 221-247):
insert every new record with status `new` and append a change-log entry
with `previousStatus = newStatus = NEW`. Returns
(store, next fresh id, log entries in order). -/
def applyNew (now : Int) : List EventData → Store → Nat → Store × Nat × List StatusChangeLog
  | [], store, nid => (store, nid, [])
  | d :: rest, store, nid =>
    let ev := newFromData d nid
    let r := applyNew now rest (store ++ [ev]) (nid + 1)
    (r.1, r.2.1,
      { eventId := ev.id, previousStatus := .new, newStatus := .new,
        reason := "Event created from scraping", timestamp := now,
        metaSource := some d.sourceWebsite } :: r.2.2)

/-- Second loop of `applyStatusChanges` (StatusManager.ts lines 250-281):
overwrite each matched-and-changed document with the scraped data and
status `updated` (no transition validation), logging the change. -/
def applyUpdated (now : Int) : List (IEvent × EventData) → Store → Store × List StatusChangeLog
  | [], store => (store, [])
  | (e, u) :: rest, store =>
    let r := applyUpdated now rest (saveById store e.id (assignUpdated e u now))
    (r.1,
      { eventId := e.id, previousStatus := e.status, newStatus := .updated,
        reason := "Event data changed during scraping", timestamp := now,
        metaSource := some u.sourceWebsite } :: r.2)

/-- Third loop of `applyStatusChanges` (StatusManager.ts lines 284-309):
mark each classified-inactive document `inactive` (no transition
validation), refreshing `lastScrapedAt` and logging the change. -/
def applyInactive (now : Int) : List IEvent → Store → Store × List StatusChangeLog
  | [], store => (store, [])
  | e :: rest, store =>
    let r := applyInactive now rest
      (saveById store e.id { e with status := .inactive, lastScrapedAt := now })
    (r.1,
      { eventId := e.id, previousStatus := e.status, newStatus := .inactive,
        reason := "Event no longer found on source website", timestamp := now,
        metaSource := some e.sourceWebsite } :: r.2)

/-- The filter of the second loop of `processScrapedEvents` (StatusManager.ts
lines 130-144): existing records absent from the fresh batch whose status is
not already `inactive` or `imported`. -/
def inactivesOf (em : List IEvent) (scraped : List EventData) : List IEvent :=
  em.filter (fun e =>
    !scrapedHas scraped e.originalEventUrl &&
    e.status != EventStatus.inactive && e.status != EventStatus.imported)

/-- `StatusManager.processScrapedEvents` (StatusManager.ts lines 58-162)
followed by `applyStatusChanges` (lines 217-310): load the source's
existing events, classify the fresh batch, classify disappeared records as
inactive unless already `inactive`/`imported`, then apply all changes.
`nextId` is the next fresh `_id`; returns (result, store, next fresh id). -/
def processScrapedEvents (store : Store) (nextId : Nat) (now : Int)
    (scraped : List EventData) (src : String) : ChangeDetectionResult × Store × Nat :=
  let existing := findBySource store src
  let scan := scanScraped existing now scraped store
  let news := scan.1
  let upds := scan.2.1
  let inactives := inactivesOf existing scraped
  let an := applyNew now news scan.2.2 nextId
  let au := applyUpdated now upds an.1
  let ai := applyInactive now inactives au.1
  ({ newEvents := news, updatedEvents := upds, inactiveEvents := inactives,
     statusChanges := an.2.2 ++ au.2 ++ ai.2 },
   ai.1, an.2.1)

/-- Result type of `importEvent`: `{ success: boolean; error?: string }`. -/
structure ImportResult where
  success : Bool
  error : Option String
  deriving DecidableEq, Repr

/-- `Event.findById` (StatusManager.ts line 352). -/
def findById (store : Store) (i : Nat) : Option IEvent :=
  store.find? (fun e => e.id == i)

/-- `StatusManager.importEvent` (StatusManager.ts lines 346-403): load the
record, validate the transition to `imported`, set the import fields, save
and log; expected failures (not found, invalid transition) are returned,
not thrown. `if (importNotes)` is JS truthiness: `undefined` and `""` both
leave the field untouched. -/
def importEvent (store : Store) (logs : List StatusChangeLog) (eventId : Nat)
    (userId : String) (importNotes : Option String) (now : Int) :
    ImportResult × Store × List StatusChangeLog :=
  match findById store eventId with
  | none => ({ success := false, error := some "Event not found" }, store, logs)
  | some e =>
    let v := validateStatusTransition e.status .imported
    if v.valid then
      let e' : IEvent :=
        { e with status := .imported, importedAt := some now,
                 importedBy := some userId,
                 importNotes :=
                   match importNotes with
                   | some s => if s == "" then e.importNotes else some s
                   | none => e.importNotes }
      ({ success := true, error := none },
       saveById store e.id e',
       logs ++ [{ eventId := e.id, previousStatus := e.status, newStatus := .imported,
                  reason := "Event manually imported by admin", timestamp := now,
                  metaUserId := some userId, metaImportNotes := importNotes }])
    else
      ({ success := false, error := v.reason }, store, logs)

/-! ## Basic lemmas about the embedded store operations -/

theorem lookupUrl_mem {l : List IEvent} {url : String} {x : IEvent}
    (h : lookupUrl l url = some x) : x ∈ l ∧ x.originalEventUrl = url := by
  induction l with
  | nil => simp [lookupUrl] at h
  | cons e rest ih =>
    rw [lookupUrl] at h
    cases hr : lookupUrl rest url with
    | some y =>
      rw [hr] at h
      cases h
      exact ⟨List.mem_cons_of_mem _ (ih hr).1, (ih hr).2⟩
    | none =>
      rw [hr] at h
      by_cases he : e.originalEventUrl = url
      · simp [he] at h
        cases h
        exact ⟨List.mem_cons_self _ _, he⟩
      · simp [he] at h

theorem lookupUrl_eq_none {l : List IEvent} {url : String} :
    lookupUrl l url = none ↔ ∀ x ∈ l, x.originalEventUrl ≠ url := by
  induction l with
  | nil => simp [lookupUrl]
  | cons e rest ih =>
    rw [lookupUrl]
    cases hr : lookupUrl rest url with
    | some y =>
      simp only []
      constructor
      · intro h; cases h
      · intro h
        exact absurd (lookupUrl_mem hr).2 (h y (List.mem_cons_of_mem _ (lookupUrl_mem hr).1))
    | none =>
      by_cases he : e.originalEventUrl = url
      · simp [he]
      · simp only [he, if_neg, ite_eq_right_iff]
        simp [he]
        exact fun a ha => ih.mp hr a ha

theorem lookupUrl_self {l : List IEvent}
    (hnd : (l.map (fun x => x.originalEventUrl)).Nodup) {x : IEvent} (hx : x ∈ l) :
    lookupUrl l x.originalEventUrl = some x := by
  induction l with
  | nil => cases hx
  | cons e rest ih =>
    rw [List.map_cons, List.nodup_cons] at hnd
    rcases List.mem_cons.mp hx with hex | hxr
    · subst hex
      have hnone : lookupUrl rest x.originalEventUrl = none :=
        lookupUrl_eq_none.mpr (fun y hy hu =>
          hnd.1 (hu ▸ List.mem_map_of_mem _ hy))
      rw [lookupUrl, hnone]
      simp
    · rw [lookupUrl, ih hnd.2 hxr]

theorem scrapedHas_iff {scraped : List EventData} {url : String} :
    scrapedHas scraped url = true ↔ ∃ s ∈ scraped, s.originalEventUrl = url := by
  simp [scrapedHas, List.any_eq_true]

/-! ## Generic conditional-write folds

Every store mutation performed by the reconciler is a `doc.save()` keyed on
`_id`. We factor these as folds of conditional writes, which lets each
pipeline stage be analysed pointwise on store entries. -/

/-- One conditional write, as observed by a single store entry `y`:
if the writer fires with `y`'s `_id`, `y` is replaced by the written
document. -/
def writeStep (w : α → Option (Nat × IEvent)) (y : IEvent) (a : α) : IEvent :=
  match w a with
  | some (i, doc) => if y.id == i then doc else y
  | none => y

theorem writeStep_some {w : α → Option (Nat × IEvent)} {a : α} {i : Nat} {doc : IEvent}
    (h : w a = some (i, doc)) (y : IEvent) :
    writeStep w y a = if y.id == i then doc else y := by
  unfold writeStep; rw [h]

theorem writeStep_none {w : α → Option (Nat × IEvent)} {a : α}
    (h : w a = none) (y : IEvent) : writeStep w y a = y := by
  unfold writeStep; rw [h]

/-- Cumulative effect of a sequence of conditional writes on one entry. -/
def writeFold (w : α → Option (Nat × IEvent)) : List α → IEvent → IEvent
  | [], y => y
  | a :: rest, y => writeFold w rest (writeStep w y a)

/-- One conditional write against the whole store. -/
def storeStep (w : α → Option (Nat × IEvent)) (st : Store) (a : α) : Store :=
  match w a with
  | some (i, doc) => saveById st i doc
  | none => st

theorem storeStep_some {w : α → Option (Nat × IEvent)} {a : α} {i : Nat} {doc : IEvent}
    (h : w a = some (i, doc)) (st : Store) : storeStep w st a = saveById st i doc := by
  unfold storeStep; rw [h]

theorem storeStep_none {w : α → Option (Nat × IEvent)} {a : α}
    (h : w a = none) (st : Store) : storeStep w st a = st := by
  unfold storeStep; rw [h]

/-- A sequence of conditional `doc.save()` calls applied to the store. -/
def storeWriteFold (w : α → Option (Nat × IEvent)) : List α → Store → Store
  | [], st => st
  | a :: rest, st => storeWriteFold w rest (storeStep w st a)

theorem storeWriteFold_eq_map (w : α → Option (Nat × IEvent)) (l : List α) (st : Store) :
    storeWriteFold w l st = st.map (writeFold w l) := by
  induction l generalizing st with
  | nil =>
    have h : writeFold w ([] : List α) = id := funext fun _ => rfl
    rw [storeWriteFold, h, List.map_id]
  | cons a rest ih =>
    rw [storeWriteFold, ih]
    have h : writeFold w (a :: rest) = fun y => writeFold w rest (writeStep w y a) :=
      funext fun _ => rfl
    rw [h]
    cases hw : w a with
    | some idoc =>
      rcases idoc with ⟨i, doc⟩
      rw [storeStep_some hw, saveById, List.map_map]
      congr 1
      funext y
      simp [Function.comp, writeStep_some hw]
    | none =>
      rw [storeStep_none hw]
      congr 1
      funext y
      rw [writeStep_none hw]

/-- Writes that either miss `y`'s id or rewrite `y` to itself leave `y`
unchanged. -/
theorem writeFold_fix {w : α → Option (Nat × IEvent)} {l : List α} {y : IEvent}
    (h : ∀ a ∈ l, ∀ i doc, w a = some (i, doc) → i = y.id → doc = y) :
    writeFold w l y = y := by
  induction l with
  | nil => rfl
  | cons a rest ih =>
    have hstep : writeStep w y a = y := by
      unfold writeStep
      cases hw : w a with
      | some idoc =>
        rcases idoc with ⟨i, doc⟩
        by_cases hi : y.id = i
        · simp [hi, h a (List.mem_cons_self _ _) i doc hw hi.symm]
        · simp [hi]
      | none => rfl
    rw [writeFold, hstep]
    exact ih (fun a ha => h a (List.mem_cons_of_mem _ ha))

/-- If some write in the sequence fires at `y`'s id, every write at that id
writes the same document `d`, and `d` keeps the id, then the fold replaces
`y` by `d`. -/
theorem writeFold_write {w : α → Option (Nat × IEvent)} {l : List α} {y d : IEvent}
    {a0 : α} (ha0 : a0 ∈ l) (hw0 : w a0 = some (y.id, d)) (hid : d.id = y.id)
    (huniq : ∀ a ∈ l, ∀ i doc, w a = some (i, doc) → i = y.id → doc = d) :
    writeFold w l y = d := by
  induction l with
  | nil => cases ha0
  | cons a rest ih =>
    rw [writeFold]
    cases hw : w a with
    | some idoc =>
      rcases idoc with ⟨i, doc⟩
      by_cases hi : i = y.id
      · have hdoc : doc = d := huniq a (List.mem_cons_self _ _) i doc hw hi
        have hstep : writeStep w y a = d := by
          unfold writeStep; simp [hw, hi, hdoc]
        rw [hstep]
        exact writeFold_fix (fun b hb j dj hwb hj =>
          huniq b (List.mem_cons_of_mem _ hb) j dj hwb (by rw [hj, hid]))
      · have hstep : writeStep w y a = y := by
          unfold writeStep
          simp [hw]
          intro h'
          exact absurd h'.symm hi
        rw [hstep]
        have ha0' : a0 ∈ rest := by
          rcases List.mem_cons.mp ha0 with h' | h'
          · subst h'; rw [hw0] at hw; cases hw; exact absurd rfl hi
          · exact h'
        exact ih ha0' (fun b hb => huniq b (List.mem_cons_of_mem _ hb))
    | none =>
      have hstep : writeStep w y a = y := by unfold writeStep; simp [hw]
      rw [hstep]
      have ha0' : a0 ∈ rest := by
        rcases List.mem_cons.mp ha0 with h' | h'
        · subst h'; rw [hw0] at hw; cases hw
        · exact h'
      exact ih ha0' (fun b hb => huniq b (List.mem_cons_of_mem _ hb))

/-! ## Closed forms of the reconciliation loops -/

/-- Fresh records with no existing match (new classification). -/
def newsOf (em : List IEvent) (scraped : List EventData) : List EventData :=
  scraped.filter (fun s => (lookupUrl em s.originalEventUrl).isNone)

/-- Matched fresh records whose compared fields changed (updated
classification), paired with their snapshot documents. -/
def updsOf (em : List IEvent) (scraped : List EventData) : List (IEvent × EventData) :=
  scraped.filterMap (fun s =>
    match lookupUrl em s.originalEventUrl with
    | some e => if detectEventChanges e s then some (e, s) else none
    | none => none)

/-- The conditional write performed by the unchanged branch of the first
classification loop: refresh `lastScrapedAt` of the matched document. -/
def refreshWrite (em : List IEvent) (now : Int) (s : EventData) : Option (Nat × IEvent) :=
  match lookupUrl em s.originalEventUrl with
  | some e =>
    if detectEventChanges e s then none else some (e.id, { e with lastScrapedAt := now })
  | none => none

theorem scanScraped_eq (em : List IEvent) (now : Int) (scraped : List EventData)
    (store : Store) :
    scanScraped em now scraped store =
      (newsOf em scraped, updsOf em scraped,
       storeWriteFold (refreshWrite em now) scraped store) := by
  induction scraped generalizing store with
  | nil => rfl
  | cons s rest ih =>
    rw [scanScraped]
    split
    next hl =>
      rw [ih]
      simp [newsOf, updsOf, storeWriteFold, storeStep, refreshWrite, hl,
        List.filter_cons, List.filterMap_cons]
    next e hl =>
      by_cases hd : detectEventChanges e s
      · rw [if_pos hd, ih]
        simp [newsOf, updsOf, storeWriteFold, storeStep, refreshWrite, hl, hd,
          List.filter_cons, List.filterMap_cons]
      · rw [if_neg hd, ih]
        simp [newsOf, updsOf, storeWriteFold, storeStep, refreshWrite, hl, hd,
          List.filter_cons, List.filterMap_cons]

/-- Documents inserted for the new classifications, with consecutive ids. -/
def newDocs : List EventData → Nat → List IEvent
  | [], _ => []
  | d :: rest, nid => newFromData d nid :: newDocs rest (nid + 1)

/-- Log entries appended for the new classifications. -/
def newLogs (now : Int) : List EventData → Nat → List StatusChangeLog
  | [], _ => []
  | d :: rest, nid =>
    { eventId := nid, previousStatus := .new, newStatus := .new,
      reason := "Event created from scraping", timestamp := now,
      metaSource := some d.sourceWebsite } :: newLogs now rest (nid + 1)

theorem applyNew_eq (now : Int) (ds : List EventData) :
    ∀ (store : Store) (nid : Nat),
      applyNew now ds store nid =
        (store ++ newDocs ds nid, nid + ds.length, newLogs now ds nid) := by
  induction ds with
  | nil => intro store nid; simp [applyNew, newDocs, newLogs]
  | cons d rest ih =>
    intro store nid
    rw [applyNew, ih]
    simp [newDocs, newLogs, newFromData, Nat.add_comm, Nat.add_assoc, Nat.add_left_comm]

/-- The write performed for each updated classification. -/
def updWrite (now : Int) (p : IEvent × EventData) : Option (Nat × IEvent) :=
  some (p.1.id, assignUpdated p.1 p.2 now)

/-- Log entries appended for the updated classifications. -/
def updLogs (now : Int) (pairs : List (IEvent × EventData)) : List StatusChangeLog :=
  pairs.map (fun p =>
    { eventId := p.1.id, previousStatus := p.1.status, newStatus := .updated,
      reason := "Event data changed during scraping", timestamp := now,
      metaSource := some p.2.sourceWebsite })

theorem applyUpdated_eq (now : Int) (pairs : List (IEvent × EventData)) :
    ∀ store : Store,
      applyUpdated now pairs store =
        (storeWriteFold (updWrite now) pairs store, updLogs now pairs) := by
  induction pairs with
  | nil => intro store; rfl
  | cons p rest ih =>
    intro store
    rcases p with ⟨e, u⟩
    rw [applyUpdated, ih]
    simp [storeWriteFold, storeStep, updLogs, updWrite]

/-- The write performed for each inactive classification. -/
def inactWrite (now : Int) (e : IEvent) : Option (Nat × IEvent) :=
  some (e.id, { e with status := .inactive, lastScrapedAt := now })

/-- Log entries appended for the inactive classifications. -/
def inactLogs (now : Int) (l : List IEvent) : List StatusChangeLog :=
  l.map (fun e =>
    { eventId := e.id, previousStatus := e.status, newStatus := .inactive,
      reason := "Event no longer found on source website", timestamp := now,
      metaSource := some e.sourceWebsite })

theorem applyInactive_eq (now : Int) (l : List IEvent) :
    ∀ store : Store,
      applyInactive now l store =
        (storeWriteFold (inactWrite now) l store, inactLogs now l) := by
  induction l with
  | nil => intro store; rfl
  | cons e rest ih =>
    intro store
    rw [applyInactive, ih]
    simp [storeWriteFold, storeStep, inactLogs, inactWrite]

/-- `processScrapedEvents`, rewritten in terms of the closed forms of its
three loops. -/
theorem processScrapedEvents_eq (store : Store) (nextId : Nat) (now : Int)
    (scraped : List EventData) (src : String) :
    processScrapedEvents store nextId now scraped src =
      ({ newEvents := newsOf (findBySource store src) scraped,
         updatedEvents := updsOf (findBySource store src) scraped,
         inactiveEvents := inactivesOf (findBySource store src) scraped,
         statusChanges :=
           newLogs now (newsOf (findBySource store src) scraped) nextId ++
           updLogs now (updsOf (findBySource store src) scraped) ++
           inactLogs now (inactivesOf (findBySource store src) scraped) },
       storeWriteFold (inactWrite now) (inactivesOf (findBySource store src) scraped)
         (storeWriteFold (updWrite now) (updsOf (findBySource store src) scraped)
           (storeWriteFold (refreshWrite (findBySource store src) now) scraped store ++
            newDocs (newsOf (findBySource store src) scraped) nextId)),
       nextId + (newsOf (findBySource store src) scraped).length) := by
  simp only [processScrapedEvents, scanScraped_eq, applyNew_eq, applyUpdated_eq,
    applyInactive_eq]

/-! ## Provenance and id-tracking lemmas -/

/-- Writers that key each written document on its own `_id` (every
`doc.save()` does). -/
def IdWrite (w : α → Option (Nat × IEvent)) : Prop :=
  ∀ a i doc, w a = some (i, doc) → doc.id = i

theorem refreshWrite_idWrite (em : List IEvent) (now : Int) :
    IdWrite (refreshWrite em now) := by
  intro a i doc h
  unfold refreshWrite at h
  split at h
  next e _ =>
    split at h
    · cases h
    · cases h; rfl
  next => cases h

theorem updWrite_idWrite (now : Int) : IdWrite (updWrite now) := by
  intro a i doc h
  cases h; rfl

theorem inactWrite_idWrite (now : Int) : IdWrite (inactWrite now) := by
  intro a i doc h
  cases h; rfl

theorem writeFold_id {w : α → Option (Nat × IEvent)} (hw : IdWrite w)
    (l : List α) (y : IEvent) : (writeFold w l y).id = y.id := by
  induction l generalizing y with
  | nil => rfl
  | cons a rest ih =>
    rw [writeFold]
    have hs : (writeStep w y a).id = y.id := by
      unfold writeStep
      cases hwa : w a with
      | some idoc =>
        rcases idoc with ⟨i, doc⟩
        by_cases hi : y.id = i
        · simp [hi, hw a i doc hwa]
        · simp [hi]
      | none => rfl
    rw [ih, hs]

theorem store_id_inj {store : Store} (h : (store.map (fun x => x.id)).Nodup)
    {a b : IEvent} (ha : a ∈ store) (hb : b ∈ store) (hid : a.id = b.id) : a = b :=
  List.inj_on_of_nodup_map h ha hb hid

theorem mem_findBySource {store : Store} {src : String} {x : IEvent} :
    x ∈ findBySource store src ↔ x ∈ store ∧ x.sourceWebsite = src := by
  simp [findBySource, List.mem_filter]

theorem mem_updsOf {em : List IEvent} {scraped : List EventData}
    {p : IEvent × EventData} (h : p ∈ updsOf em scraped) :
    p.1 ∈ em ∧ detectEventChanges p.1 p.2 = true ∧ p.2 ∈ scraped ∧
      p.1.originalEventUrl = p.2.originalEventUrl := by
  rw [updsOf, List.mem_filterMap] at h
  obtain ⟨s, hs, hf⟩ := h
  split at hf
  next e hl =>
    split at hf
    next hd =>
      cases hf
      obtain ⟨hm, hu⟩ := lookupUrl_mem hl
      exact ⟨hm, hd, hs, hu⟩
    next => cases hf
  next => cases hf

theorem mem_inactivesOf {em : List IEvent} {scraped : List EventData} {x : IEvent}
    (h : x ∈ inactivesOf em scraped) :
    x ∈ em ∧ scrapedHas scraped x.originalEventUrl = false ∧
      x.status ≠ .inactive ∧ x.status ≠ .imported := by
  rw [inactivesOf, List.mem_filter] at h
  obtain ⟨hm, hc⟩ := h
  simp only [Bool.and_eq_true, Bool.not_eq_true', bne_iff_ne, ne_eq] at hc
  exact ⟨hm, hc.1.1, hc.1.2, hc.2⟩

theorem mem_newDocs_id {ds : List EventData} :
    ∀ {nid : Nat} {x : IEvent}, x ∈ newDocs ds nid → nid ≤ x.id := by
  induction ds with
  | nil => intro nid x h; cases h
  | cons d rest ih =>
    intro nid x h
    rcases List.mem_cons.mp h with h' | h'
    · subst h'; exact Nat.le_refl _
    · exact Nat.le_of_succ_le (ih h')

theorem mem_newLogs {now : Int} {ds : List EventData} :
    ∀ {nid : Nat} {c : StatusChangeLog}, c ∈ newLogs now ds nid →
      c.previousStatus = .new ∧ c.newStatus = .new ∧
        c.reason = "Event created from scraping" := by
  induction ds with
  | nil => intro nid c h; cases h
  | cons d rest ih =>
    intro nid c h
    rcases List.mem_cons.mp h with h' | h'
    · subst h'; exact ⟨rfl, rfl, rfl⟩
    · exact ih h'

theorem mem_updLogs {now : Int} {pairs : List (IEvent × EventData)} {c : StatusChangeLog}
    (h : c ∈ updLogs now pairs) :
    c.newStatus = .updated ∧ c.reason = "Event data changed during scraping" ∧
      ∃ p ∈ pairs, c.previousStatus = p.1.status ∧ c.eventId = p.1.id := by
  rw [updLogs, List.mem_map] at h
  obtain ⟨p, hp, hc⟩ := h
  subst hc
  exact ⟨rfl, rfl, p, hp, rfl, rfl⟩

theorem mem_inactLogs {now : Int} {l : List IEvent} {c : StatusChangeLog}
    (h : c ∈ inactLogs now l) :
    c.newStatus = .inactive ∧ c.reason = "Event no longer found on source website" ∧
      ∃ e ∈ l, c.previousStatus = e.status ∧ c.eventId = e.id := by
  rw [inactLogs, List.mem_map] at h
  obtain ⟨e, he, hc⟩ := h
  subst hc
  exact ⟨rfl, rfl, e, he, rfl, rfl⟩

theorem validate_reason_of_invalid {c n : EventStatus}
    (h : (validateStatusTransition c n).valid = false) :
    (validateStatusTransition c n).reason = some (mkInvalidReason c n) := by
  by_cases hm : n ∈ allowedTransitions c
  · simp [validateStatusTransition, hm] at h
  · simp [validateStatusTransition, hm]

/-! ## Concrete fixtures used by counterexamples and witnesses -/

/-- A fresh scraped record. -/
def dW : EventData :=
  { title := "W", dateTime := 100, venueName := "V", venueAddress := none,
    city := "Sydney", description := "d", categoryTags := [], imageUrl := none,
    sourceWebsite := "s1", originalEventUrl := "https://a/e1", lastScrapedAt := 42 }

/-- A persisted record in the terminal `imported` status, same natural key
as `dW`. -/
def impEv : IEvent :=
  { id := 0, title := "W", dateTime := 100, venueName := "V", venueAddress := none,
    city := "Sydney", description := "d", categoryTags := [], imageUrl := none,
    sourceWebsite := "s1", originalEventUrl := "https://a/e1", status := .imported,
    lastScrapedAt := 10, importedAt := some 9, importedBy := some "admin",
    importNotes := none }

/-- `dW` with a changed description (same natural key). -/
def chData : EventData := { dW with description := "CHANGED" }

/-- `dW` under a different natural key. -/
def otherData : EventData := { dW with originalEventUrl := "https://a/e2" }

/-! ## C10: creation audit entries record the self-pair (new, new) -/

/-- C10: every status-change entry produced for a created record has
`previousStatus = newStatus = new`, and (new, new) is not a pair of the
transition table (neither for the spec table nor for
`validateStatusTransition`). -/
theorem creation_log_self_pair (store : Store) (nextId : Nat) (now : Int)
    (scraped : List EventData) (src : String) :
    ∀ c ∈ (processScrapedEvents store nextId now scraped src).1.statusChanges,
      c.reason = "Event created from scraping" →
        c.previousStatus = .new ∧ c.newStatus = .new ∧
        (validateStatusTransition .new .new).valid = false ∧
        specTransitionTable .new .new = false := by
  intro c hc hr
  rw [processScrapedEvents_eq] at hc
  simp only [List.mem_append] at hc
  rcases hc with (hc | hc) | hc
  · obtain ⟨h1, h2, _⟩ := mem_newLogs hc
    exact ⟨h1, h2, by decide, by decide⟩
  · exact absurd ((mem_updLogs hc).2.1.symm.trans hr) (by decide)
  · exact absurd ((mem_inactLogs hc).2.1.symm.trans hr) (by decide)

/-- Witness for C10: the creation entry of a concrete run. -/
theorem creation_log_self_pair_witness :
    ({ eventId := 0, previousStatus := .new, newStatus := .new,
       reason := "Event created from scraping", timestamp := 5,
       metaSource := some "s1" } : StatusChangeLog).previousStatus = .new ∧
    ({ eventId := 0, previousStatus := .new, newStatus := .new,
       reason := "Event created from scraping", timestamp := 5,
       metaSource := some "s1" } : StatusChangeLog).newStatus = .new ∧
      (validateStatusTransition .new .new).valid = false ∧
      specTransitionTable .new .new = false :=
  creation_log_self_pair [] 0 5 [dW] "s1" _ (by decide) (by decide)

/-! ## C3: terminal-state protection against the inactive pass -/

/-- C3: a persisted record with status `imported` or `inactive` whose key is
absent from the fresh batch is never classified inactive, and its status is
unchanged in the store produced by the reconciliation pass. -/
theorem terminal_never_reclassified_inactive (store : Store) (nextId : Nat)
    (now : Int) (scraped : List EventData) (src : String) (e : IEvent)
    (hmem : e ∈ store) (hstat : e.status = .imported ∨ e.status = .inactive)
    (habs : scrapedHas scraped e.originalEventUrl = false)
    (hids : (store.map (fun x => x.id)).Nodup)
    (hfresh : ∀ x ∈ store, x.id < nextId) :
    e ∉ (processScrapedEvents store nextId now scraped src).1.inactiveEvents ∧
    ∀ r ∈ (processScrapedEvents store nextId now scraped src).2.1,
      r.id = e.id → r.status = e.status := by
  have hsub : ∀ x ∈ findBySource store src, x ∈ store := fun x hx =>
    (mem_findBySource.mp hx).1
  have hnotin : e ∉ inactivesOf (findBySource store src) scraped := by
    intro h
    obtain ⟨_, _, hni, himp⟩ := mem_inactivesOf h
    rcases hstat with h' | h'
    · exact himp h'
    · exact hni h'
  -- none of the three write stages ever fires at e's id
  have hR : writeFold (refreshWrite (findBySource store src) now) scraped e = e := by
    apply writeFold_fix
    intro s hs i doc hw hi
    exfalso
    unfold refreshWrite at hw
    split at hw
    next e' hl =>
      split at hw
      · cases hw
      · cases hw
        have he' : e' = e := store_id_inj hids (hsub e' (lookupUrl_mem hl).1) hmem hi
        have hu := (lookupUrl_mem hl).2
        rw [he'] at hu
        have htrue : scrapedHas scraped e.originalEventUrl = true :=
          scrapedHas_iff.mpr ⟨s, hs, hu.symm ▸ rfl⟩
        rw [habs] at htrue
        cases htrue
    next => cases hw
  have hU : writeFold (updWrite now) (updsOf (findBySource store src) scraped) e = e := by
    apply writeFold_fix
    intro p hp i doc hw hi
    exfalso
    cases hw
    obtain ⟨hpm, _, hps, hpu⟩ := mem_updsOf hp
    have hpe : p.1 = e := store_id_inj hids (hsub _ hpm) hmem hi
    rw [hpe] at hpu
    have htrue : scrapedHas scraped e.originalEventUrl = true :=
      scrapedHas_iff.mpr ⟨p.2, hps, hpu.symm⟩
    rw [habs] at htrue
    cases htrue
  have hI : writeFold (inactWrite now) (inactivesOf (findBySource store src) scraped) e = e := by
    apply writeFold_fix
    intro x' hx' i doc hw hi
    exfalso
    have hxe : x' = e := store_id_inj hids (hsub _ (mem_inactivesOf hx').1) hmem (by cases hw; exact hi)
    exact hnotin (hxe ▸ hx')
  constructor
  · rw [processScrapedEvents_eq]
    exact hnotin
  · intro r hr hrid
    rw [processScrapedEvents_eq] at hr
    rw [storeWriteFold_eq_map, storeWriteFold_eq_map, storeWriteFold_eq_map] at hr
    dsimp only at hr
    rw [List.map_append, List.map_map] at hr
    rcases List.mem_map.mp hr with ⟨y1, hy1, hIf⟩
    rcases List.mem_append.mp hy1 with h2 | h2
    · rcases List.mem_map.mp h2 with ⟨x, hx, hRUf⟩
      have hidchain : r.id = x.id := by
        rw [← hIf, ← hRUf]
        rw [writeFold_id (inactWrite_idWrite now)]
        simp only [Function.comp]
        rw [writeFold_id (updWrite_idWrite now), writeFold_id (refreshWrite_idWrite _ now)]
      have hxe : x = e := store_id_inj hids hx hmem (by rw [← hidchain, hrid])
      subst hxe
      rw [← hIf, ← hRUf]
      simp only [Function.comp]
      rw [hR, hU, hI]
    · rcases List.mem_map.mp h2 with ⟨nd, hnd, hUf⟩
      exfalso
      have h1 : nextId ≤ nd.id := mem_newDocs_id hnd
      have h2' : r.id = nd.id := by
        rw [← hIf, ← hUf]
        rw [writeFold_id (inactWrite_idWrite now), writeFold_id (updWrite_idWrite now)]
      have h3 : e.id < nextId := hfresh e hmem
      omega

/-- Witness for C3: a concrete imported record absent from the fresh batch. -/
theorem terminal_never_reclassified_inactive_witness :
    impEv ∉ (processScrapedEvents [impEv] 1 99 [otherData] "s1").1.inactiveEvents ∧
    ∀ r ∈ (processScrapedEvents [impEv] 1 99 [otherData] "s1").2.1,
      r.id = impEv.id → r.status = impEv.status :=
  terminal_never_reclassified_inactive [impEv] 1 99 [otherData] "s1" impEv
    (by decide) (Or.inl rfl) (by decide) (by decide) (by decide)

/-! ## C1: the reconciler does not validate transitions before applying them -/

/-- Counterexample to C1: a record with terminal status `imported` whose key
appears in the fresh batch with changed fields is silently overwritten to
status `updated` — a transition outside the table — with no rejection. -/
theorem reconciler_overwrites_imported_counterexample :
    (processScrapedEvents [impEv] 1 1000 [chData] "s1").2.1.map (fun r => r.status) =
      [EventStatus.updated] ∧
    (processScrapedEvents [impEv] 1 1000 [chData] "s1").1.statusChanges.map
        (fun c => (c.previousStatus, c.newStatus)) =
      [(EventStatus.imported, EventStatus.updated)] ∧
    specTransitionTable .imported .updated = false ∧
    (validateStatusTransition .imported .updated).valid = false := by
  refine ⟨?_, ?_, by decide, by decide⟩ <;> decide

/-- C1 (amended): `importEvent` validates the transition to `imported` and
rejects an invalid one with the reason naming the (from, to) pair, leaving
store and log unchanged; the reconciler's update pass, by contrast, applies
and logs status `updated` for every classified pair regardless of the prior
status, with no validation. -/
theorem import_validates_reconciler_does_not (store : Store)
    (logs : List StatusChangeLog) (i : Nat) (userId : String)
    (notes : Option String) (now : Int) (e : IEvent)
    (hfind : findById store i = some e)
    (hinv : (validateStatusTransition e.status .imported).valid = false) :
    importEvent store logs i userId notes now =
      ({ success := false, error := some (mkInvalidReason e.status .imported) },
       store, logs) ∧
    ∀ (now2 : Int) (pairs : List (IEvent × EventData)) (st : Store),
      (applyUpdated now2 pairs st).2.map (fun c => (c.previousStatus, c.newStatus)) =
        pairs.map (fun p => (p.1.status, EventStatus.updated)) := by
  constructor
  · simp only [importEvent, hfind, hinv]
    simp [validate_reason_of_invalid hinv]
  · intro now2 pairs st
    rw [applyUpdated_eq]
    simp [updLogs, List.map_map]

/-- Witness for the amended C1 at a concrete imported record. -/
theorem import_validates_reconciler_does_not_witness :
    importEvent [impEv] [] 0 "admin" none 7 =
      ({ success := false, error := some (mkInvalidReason .imported .imported) },
       [impEv], []) ∧
    (applyUpdated 3 [(impEv, chData)] []).2.map
        (fun c => (c.previousStatus, c.newStatus)) =
      [(EventStatus.imported, EventStatus.updated)] := by
  have h := import_validates_reconciler_does_not [impEv] [] 0 "admin" none 7 impEv
    (by decide) (by decide)
  refine ⟨h.1, ?_⟩
  rw [h.2 3 [(impEv, chData)] []]
  decide

/-! ## Circuit breaker (src/unnamed/part_014, class CircuitBreaker) -/

/-- `enum CircuitBreakerState` (`closed`/`open`/`half_open`); `open` is a
Lean keyword, so the OPEN state is called `opened`. -/
inductive CBState
  | closed
  | opened
  | halfOpen
  deriving DecidableEq, Repr

/-- `CircuitBreakerConfig` (part_014 lines 315-320); times in ms. -/
structure CBConfig where
  failureThreshold : Nat
  recoveryTimeout : Int
  monitoringPeriod : Int
  successThreshold : Nat
  deriving DecidableEq, Repr

/-- The mutable fields of `class CircuitBreaker` (part_014 lines 326-330). -/
structure CircuitBreaker where
  state : CBState
  failures : Nat
  successes : Nat
  lastFailureTime : Int
  failureTimes : List Int
  deriving DecidableEq, Repr

/-- Field initialisers of a fresh breaker. -/
def cbInit : CircuitBreaker :=
  { state := .closed, failures := 0, successes := 0, lastFailureTime := 0,
    failureTimes := [] }

/-- `CircuitBreaker.onSuccess` (part_014 lines 363-375). -/
def onSuccess (cfg : CBConfig) (cb : CircuitBreaker) : CircuitBreaker :=
  let cb1 := { cb with failures := 0, failureTimes := [] }
  if cb1.state = .halfOpen then
    if cfg.successThreshold ≤ cb1.successes + 1 then
      { cb1 with state := .closed, successes := 0 }
    else { cb1 with successes := cb1.successes + 1 }
  else cb1

/-- `CircuitBreaker.onFailure` (part_014 lines 380-406): push the failure
time, drop times older than the monitoring window, and open the breaker
from HALF_OPEN always, or from CLOSED when the windowed count reaches the
threshold. -/
def onFailure (cfg : CBConfig) (cb : CircuitBreaker) (now : Int) : CircuitBreaker :=
  let fts := (cb.failureTimes ++ [now]).filter (fun t => now - t ≤ cfg.monitoringPeriod)
  let cb1 := { cb with failures := cb.failures + 1, lastFailureTime := now,
                       failureTimes := fts }
  if cb1.state = .halfOpen then
    { cb1 with state := .opened, successes := 0 }
  else if cb1.state = .closed ∧ cfg.failureThreshold ≤ fts.length then
    { cb1 with state := .opened }
  else cb1

/-- Outcome of the wrapped operation, when it is invoked. -/
inductive OpOutcome
  | ok
  | err
  deriving DecidableEq, Repr

/-- What `execute` does: fail fast with the circuit-open error, or invoke
the operation and return/rethrow its outcome. -/
inductive ExecResult
  | circuitOpen
  | opOk
  | opErr
  deriving DecidableEq, Repr

/-- The `try { await operation() }` part of `execute`: invoke the operation
and run `onSuccess`/`onFailure`. -/
def runOp (cfg : CBConfig) (cb : CircuitBreaker) (now : Int) :
    OpOutcome → ExecResult × CircuitBreaker
  | .ok => (.opOk, onSuccess cfg cb)
  | .err => (.opErr, onFailure cfg cb now)

/-- `CircuitBreaker.execute` (part_014 lines 340-358): in OPEN, either fail
fast without invoking the operation (timeout not elapsed) or move to
HALF_OPEN and invoke; otherwise invoke directly.
`shouldAttemptReset` is `now - lastFailureTime >= recoveryTimeout`. -/
def cbExecute (cfg : CBConfig) (cb : CircuitBreaker) (now : Int)
    (o : OpOutcome) : ExecResult × CircuitBreaker :=
  if cb.state = .opened then
    if cfg.recoveryTimeout ≤ now - cb.lastFailureTime then
      runOp cfg { cb with state := .halfOpen } now o
    else (.circuitOpen, cb)
  else runOp cfg cb now o

/-- A sequence of failing calls at the given times. -/
def execFailures (cfg : CBConfig) (ts : List Int) (cb : CircuitBreaker) :
    CircuitBreaker :=
  ts.foldl (fun c t => (cbExecute cfg c t .err).2) cb

/-- A sequence of `n` successful calls, all at time `now`. -/
def execOks (cfg : CBConfig) : Nat → Int → CircuitBreaker → CircuitBreaker
  | 0, _, cb => cb
  | n + 1, now, cb => execOks cfg n now (cbExecute cfg cb now .ok).2

/-! ## C4: circuit breaker lifecycle -/

/-- A breaker configuration with a short monitoring window. -/
def cxCfg : CBConfig :=
  { failureThreshold := 2, recoveryTimeout := 1000, monitoringPeriod := 100,
    successThreshold := 1 }

/-- Counterexample to C4 as stated: two consecutive failures (the configured
`failureThreshold`, with no intervening success) spaced wider than
`monitoringPeriod` do NOT open the breaker, because `onFailure` counts only
failures inside the rolling window. -/
theorem circuit_breaker_spaced_failures_counterexample :
    cxCfg.failureThreshold = 2 ∧
    (execFailures cxCfg [0, 200] cbInit).state = .closed ∧
    (execFailures cxCfg [0, 200] cbInit).state ≠ .opened := by decide

/-- One failing call on a closed breaker whose whole window is retained,
below the threshold: the breaker stays closed and records the failure. -/
theorem cbExecute_err_closed_lt {cfg : CBConfig} {cb : CircuitBreaker} {t : Int}
    (hcl : cb.state = .closed)
    (hkeep : (cb.failureTimes ++ [t]).filter
      (fun x => t - x ≤ cfg.monitoringPeriod) = cb.failureTimes ++ [t])
    (hlt : (cb.failureTimes ++ [t]).length < cfg.failureThreshold) :
    (cbExecute cfg cb t .err).2 =
      { cb with failures := cb.failures + 1, lastFailureTime := t,
                failureTimes := cb.failureTimes ++ [t] } := by
  have hnotopen : ¬ cb.state = .opened := by rw [hcl]; exact fun h => nomatch h
  rw [cbExecute, if_neg hnotopen]
  show onFailure cfg cb t = _
  unfold onFailure
  rw [hkeep]
  have h1 : ¬ cfg.failureThreshold ≤ (cb.failureTimes ++ [t]).length := by omega
  simp only [List.length_append, List.length_singleton] at hlt
  simp [hcl, h1]
  omega

/-- One failing call on a closed breaker whose whole window is retained,
reaching the threshold: the breaker opens. -/
theorem cbExecute_err_closed_ge {cfg : CBConfig} {cb : CircuitBreaker} {t : Int}
    (hcl : cb.state = .closed)
    (hkeep : (cb.failureTimes ++ [t]).filter
      (fun x => t - x ≤ cfg.monitoringPeriod) = cb.failureTimes ++ [t])
    (hge : cfg.failureThreshold ≤ (cb.failureTimes ++ [t]).length) :
    (cbExecute cfg cb t .err).2 =
      { cb with state := .opened, failures := cb.failures + 1, lastFailureTime := t,
                failureTimes := cb.failureTimes ++ [t] } := by
  have hnotopen : ¬ cb.state = .opened := by rw [hcl]; exact fun h => nomatch h
  rw [cbExecute, if_neg hnotopen]
  show onFailure cfg cb t = _
  unfold onFailure
  rw [hkeep]
  simp only [List.length_append, List.length_singleton] at hge
  simp [hcl]
  omega

theorem execFailures_window_opens (cfg : CBConfig) :
    ∀ (ts : List Int) (cb : CircuitBreaker),
      cb.state = .closed →
      (∀ t1, (t1 ∈ cb.failureTimes ∨ t1 ∈ ts) → ∀ t2 ∈ ts,
        t2 - t1 ≤ cfg.monitoringPeriod) →
      cb.failureTimes.length + ts.length ≤ cfg.failureThreshold →
      (cb.failureTimes.length + ts.length < cfg.failureThreshold →
        (execFailures cfg ts cb).state = .closed ∧
        (execFailures cfg ts cb).failureTimes = cb.failureTimes ++ ts) ∧
      (cb.failureTimes.length + ts.length = cfg.failureThreshold → ts ≠ [] →
        (execFailures cfg ts cb).state = .opened) := by
  intro ts
  induction ts with
  | nil =>
    intro cb hcl _ _
    exact ⟨fun _ => ⟨hcl, (List.append_nil _).symm⟩, fun _ h => absurd rfl h⟩
  | cons t rest ih =>
    intro cb hcl hspan hlen
    have hkeep : (cb.failureTimes ++ [t]).filter
        (fun x => t - x ≤ cfg.monitoringPeriod) = cb.failureTimes ++ [t] := by
      rw [List.filter_eq_self]
      intro x hx
      rcases List.mem_append.mp hx with hx | hx
      · exact decide_eq_true (hspan x (Or.inl hx) t (List.mem_cons_self _ _))
      · rcases List.mem_singleton.mp hx with rfl
        exact decide_eq_true
          (hspan x (Or.inr (List.mem_cons_self _ _)) x (List.mem_cons_self _ _))
    have hlen1 : (cb.failureTimes ++ [t]).length = cb.failureTimes.length + 1 := by
      simp
    by_cases hrest : rest = []
    · subst hrest
      constructor
      · intro hlt
        simp only [List.length_cons, List.length_nil] at hlt
        have hstep := cbExecute_err_closed_lt hcl hkeep (by omega)
        rw [execFailures, List.foldl_cons, hstep]
        exact ⟨hcl, rfl⟩
      · intro heq _
        simp only [List.length_cons, List.length_nil] at heq
        have hstep := cbExecute_err_closed_ge hcl hkeep (by omega)
        rw [execFailures, List.foldl_cons, hstep]
        rfl
    · have hr1 : 1 ≤ rest.length := by
        cases rest with
        | nil => exact absurd rfl hrest
        | cons a l => simp
      simp only [List.length_cons] at hlen
      have hstep := cbExecute_err_closed_lt hcl hkeep (by omega)
      have hspan' : ∀ t1, (t1 ∈ cb.failureTimes ++ [t] ∨ t1 ∈ rest) → ∀ t2 ∈ rest,
          t2 - t1 ≤ cfg.monitoringPeriod := by
        intro t1 h1 t2 h2
        rcases h1 with h1 | h1
        · rcases List.mem_append.mp h1 with h1 | h1
          · exact hspan t1 (Or.inl h1) t2 (List.mem_cons_of_mem _ h2)
          · rcases List.mem_singleton.mp h1 with rfl
            exact hspan t1 (Or.inr (List.mem_cons_self _ _)) t2 (List.mem_cons_of_mem _ h2)
        · exact hspan t1 (Or.inr (List.mem_cons_of_mem _ h1)) t2 (List.mem_cons_of_mem _ h2)
      have ihr := ih { cb with failures := cb.failures + 1, lastFailureTime := t,
                               failureTimes := cb.failureTimes ++ [t] }
        hcl hspan' (by simp only [List.length_append, List.length_singleton]; omega)
      constructor
      · intro hlt
        simp only [List.length_cons] at hlt
        rw [execFailures, List.foldl_cons, hstep]
        have h1 := ihr.1 (by
          simp only [List.length_append, List.length_singleton]
          omega)
        refine ⟨h1.1, ?_⟩
        rw [execFailures] at h1
        rw [h1.2]
        simp
      · intro heq _
        simp only [List.length_cons] at heq
        rw [execFailures, List.foldl_cons, hstep]
        have h1 := ihr.2 (by
          simp only [List.length_append, List.length_singleton]
          omega) hrest
        rw [execFailures] at h1
        exact h1

theorem execOks_closes (cfg : CBConfig) :
    ∀ (k : Nat) (cb : CircuitBreaker) (now : Int),
      cb.state = .halfOpen → cb.successes + k = cfg.successThreshold → 1 ≤ k →
      (execOks cfg k now cb).state = .closed := by
  intro k
  induction k with
  | zero => intro cb now _ _ h; cases h
  | succ n ih =>
    intro cb now hho hsum _
    have hnotopen : ¬ cb.state = .opened := by rw [hho]; intro h; cases h
    have hstep : (cbExecute cfg cb now .ok).2 = onSuccess cfg cb := by
      simp only [cbExecute, hnotopen, if_false, runOp]
    rw [execOks, hstep]
    by_cases hn : n = 0
    · subst hn
      have hcl : (onSuccess cfg cb).state = .closed := by
        unfold onSuccess
        simp only [hho]
        have : cfg.successThreshold ≤ cb.successes + 1 := by omega
        simp [this]
      rw [execOks]
      exact hcl
    · have hlt : ¬ cfg.successThreshold ≤ cb.successes + 1 := by omega
      have hsucc : onSuccess cfg cb =
          { cb with failures := 0, failureTimes := [], successes := cb.successes + 1 } := by
        unfold onSuccess
        simp [hho, hlt]
      rw [hsucc]
      exact ih _ now hho (by simp; omega) (by omega)

/-- C4 (amended): after `failureThreshold` consecutive failures all falling
within one `monitoringPeriod` window, the breaker is OPEN; while OPEN and
before `recoveryTimeout` has elapsed since the last failure, `execute`
fails fast with the circuit-open error without invoking the operation and
without touching the state; once the timeout has elapsed the next call runs
the operation in HALF_OPEN; `successThreshold` consecutive successes in
HALF_OPEN close the breaker; any failure in HALF_OPEN reopens it. -/
theorem circuit_breaker_lifecycle (cfg : CBConfig)
    (hth : 1 ≤ cfg.failureThreshold) (hst : 1 ≤ cfg.successThreshold) :
    (∀ (ts : List Int) (cb : CircuitBreaker),
      cb.state = .closed → cb.failureTimes = [] →
      ts.length = cfg.failureThreshold →
      (∀ t1 ∈ ts, ∀ t2 ∈ ts, t2 - t1 ≤ cfg.monitoringPeriod) →
      (execFailures cfg ts cb).state = .opened) ∧
    (∀ (cb : CircuitBreaker) (now : Int) (o : OpOutcome),
      cb.state = .opened → now - cb.lastFailureTime < cfg.recoveryTimeout →
      cbExecute cfg cb now o = (.circuitOpen, cb)) ∧
    (∀ (cb : CircuitBreaker) (now : Int),
      cb.state = .opened → cfg.recoveryTimeout ≤ now - cb.lastFailureTime →
      cbExecute cfg cb now .ok = (.opOk, onSuccess cfg { cb with state := .halfOpen }) ∧
      cbExecute cfg cb now .err =
        (.opErr, onFailure cfg { cb with state := .halfOpen } now)) ∧
    (∀ (cb : CircuitBreaker) (now : Int),
      cb.state = .halfOpen → cb.successes = 0 →
      (execOks cfg cfg.successThreshold now cb).state = .closed) ∧
    (∀ (cb : CircuitBreaker) (now : Int),
      cb.state = .halfOpen → (cbExecute cfg cb now .err).2.state = .opened) := by
  refine ⟨?_, ?_, ?_, ?_, ?_⟩
  · intro ts cb hcl hfts hlen hspan
    have h := execFailures_window_opens cfg ts cb hcl
      (by
        intro t1 h1 t2 h2
        rcases h1 with h1 | h1
        · rw [hfts] at h1; cases h1
        · exact hspan t1 h1 t2 h2)
      (by rw [hfts, hlen]; simp)
    apply h.2
    · rw [hfts, hlen]; simp
    · intro hnil
      rw [hnil] at hlen
      simp at hlen
      omega
  · intro cb now o hop hlt
    have : ¬ cfg.recoveryTimeout ≤ now - cb.lastFailureTime := by omega
    simp [cbExecute, hop, this]
  · intro cb now hop hle
    constructor <;> simp [cbExecute, hop, hle, runOp]
  · intro cb now hho hsucc
    exact execOks_closes cfg cfg.successThreshold cb now hho (by omega) hst
  · intro cb now hho
    have hnotopen : ¬ cb.state = .opened := by rw [hho]; intro h; cases h
    have hstep : (cbExecute cfg cb now .err).2 = onFailure cfg cb now := by
      simp only [cbExecute, hnotopen, if_false, runOp]
    rw [hstep]
    unfold onFailure
    simp [hho]

/-- A concrete open breaker and a concrete half-open breaker. -/
def cbOpenFix : CircuitBreaker :=
  { state := .opened, failures := 2, successes := 0, lastFailureTime := 50,
    failureTimes := [0, 50] }

def cbHalfFix : CircuitBreaker :=
  { state := .halfOpen, failures := 0, successes := 0, lastFailureTime := 50,
    failureTimes := [] }

/-- Witness for the amended C4 at `cxCfg`. -/
theorem circuit_breaker_lifecycle_witness :
    (execFailures cxCfg [0, 50] cbInit).state = .opened ∧
    cbExecute cxCfg cbOpenFix 100 .ok = (.circuitOpen, cbOpenFix) ∧
    cbExecute cxCfg cbOpenFix 2000 .ok =
      (.opOk, onSuccess cxCfg { cbOpenFix with state := .halfOpen }) ∧
    (execOks cxCfg cxCfg.successThreshold 5 cbHalfFix).state = .closed ∧
    (cbExecute cxCfg cbHalfFix 5 .err).2.state = .opened := by
  have h := circuit_breaker_lifecycle cxCfg (by decide) (by decide)
  exact ⟨h.1 [0, 50] cbInit rfl rfl (by decide) (by decide),
         h.2.1 cbOpenFix 100 .ok rfl (by decide),
         (h.2.2.1 cbOpenFix 2000 rfl (by decide)).1,
         h.2.2.2.1 cbHalfFix 5 rfl rfl,
         h.2.2.2.2 cbHalfFix 5 rfl⟩

/-! ## Run log (src/unnamed/part_011, ScrapingLogSchema) -/

/-- `status` enum of the run-log schema: `running`/`completed`/`failed`. -/
inductive RunStatus
  | running
  | completed
  | failed
  deriving DecidableEq, Repr

/-- A `ScrapingLog` document. Counts are `Nat` (the schema's `min: 0`
validators reject negatives before any save). -/
structure ScrapingLogDoc where
  sourceWebsite : String
  startTime : Int
  endTime : Option Int
  eventsFound : Nat
  eventsProcessed : Nat
  scrapingErrors : List String
  status : RunStatus
  deriving DecidableEq, Repr

/-- The auto-set step of the pre-save middleware (part_011 lines 77-82):
populate `endTime` when the status is completed/failed and it is unset. -/
def preSaveAutoEnd (doc : ScrapingLogDoc) (now : Int) : ScrapingLogDoc :=
  if (doc.status = .completed ∨ doc.status = .failed) ∧ doc.endTime = none then
    { doc with endTime := some now }
  else doc

/-- The first pre-save check (part_011 line 72): `endTime` set and before
`startTime` (`startTime` is required, hence always set). -/
def endBeforeStart (doc : ScrapingLogDoc) : Bool :=
  match doc.endTime with
  | some et => et < doc.startTime
  | none => false

/-- `doc.save()`: the pre-save middleware (part_011 lines 70-90) followed by
the write; rejections surface as `Except.error`. -/
def saveLog (doc : ScrapingLogDoc) (now : Int) : Except String ScrapingLogDoc :=
  if endBeforeStart doc then
    .error "End time cannot be before start time"
  else if (preSaveAutoEnd doc now).eventsFound < (preSaveAutoEnd doc now).eventsProcessed then
    .error "Events processed cannot exceed events found"
  else .ok (preSaveAutoEnd doc now)

/-- `addError` (part_011 lines 103-108): push unless already at the
100-entry cap (the subsequent save is `saveLog`). -/
def addErrorLog (doc : ScrapingLogDoc) (err : String) : ScrapingLogDoc :=
  if doc.scrapingErrors.length < 100 then
    { doc with scrapingErrors := doc.scrapingErrors ++ [err] }
  else doc

/-- `markCompleted` (part_011 lines 110-119). -/
def markCompleted (doc : ScrapingLogDoc) (ef ep : Nat) (now : Int) :
    Except String ScrapingLogDoc :=
  saveLog { doc with status := .completed, endTime := some now,
                     eventsFound := ef, eventsProcessed := ep } now

/-- `markFailed` (part_011 lines 121-128); `if (error)` is JS truthiness,
so the empty string adds no entry. -/
def markFailed (doc : ScrapingLogDoc) (err : String) (now : Int) :
    Except String ScrapingLogDoc :=
  saveLog (if err = "" then { doc with status := .failed, endTime := some now }
           else addErrorLog { doc with status := .failed, endTime := some now } err) now

/-! ## C8: run-log save invariants -/

/-- C8: a successful save yields `eventsProcessed ≤ eventsFound` and a
populated `endTime` whenever the status is completed or failed (auto-set if
absent); a write with `eventsProcessed > eventsFound` is rejected at save
time. -/
theorem runlog_save_invariants (doc : ScrapingLogDoc) (now : Int) :
    (∀ d, saveLog doc now = .ok d →
      d.eventsProcessed ≤ d.eventsFound ∧
      ((d.status = .completed ∨ d.status = .failed) → d.endTime ≠ none)) ∧
    (doc.eventsFound < doc.eventsProcessed → ∀ d, saveLog doc now ≠ .ok d) := by
  have hstatus : (preSaveAutoEnd doc now).status = doc.status := by
    unfold preSaveAutoEnd; split <;> rfl
  have hcounts : (preSaveAutoEnd doc now).eventsFound = doc.eventsFound ∧
      (preSaveAutoEnd doc now).eventsProcessed = doc.eventsProcessed := by
    unfold preSaveAutoEnd; split <;> exact ⟨rfl, rfl⟩
  constructor
  · intro d hd
    unfold saveLog at hd
    split at hd
    · cases hd
    · split at hd
      next hcnt => cases hd
      next hcnt =>
        cases hd
        refine ⟨by omega, ?_⟩
        intro hstat
        rw [hstatus] at hstat
        unfold preSaveAutoEnd
        split
        next h => simp
        next h =>
          intro hnone
          exact h ⟨hstat, hnone⟩
  · intro hgt d hd
    unfold saveLog at hd
    split at hd
    · cases hd
    · split at hd
      next => cases hd
      next hcnt =>
        apply hcnt
        omega

/-- Witness for C8: a good save (auto-setting `endTime`) and a rejected
over-count save. -/
theorem runlog_save_invariants_witness :
    (({ sourceWebsite := "https://a", startTime := 0, endTime := some 5,
        eventsFound := 5, eventsProcessed := 3, scrapingErrors := [],
        status := .completed } : ScrapingLogDoc).eventsProcessed ≤
      ({ sourceWebsite := "https://a", startTime := 0, endTime := some 5,
         eventsFound := 5, eventsProcessed := 3, scrapingErrors := [],
         status := .completed } : ScrapingLogDoc).eventsFound ∧
      ((({ sourceWebsite := "https://a", startTime := 0, endTime := some 5,
           eventsFound := 5, eventsProcessed := 3, scrapingErrors := [],
           status := .completed } : ScrapingLogDoc).status = .completed ∨
        ({ sourceWebsite := "https://a", startTime := 0, endTime := some 5,
           eventsFound := 5, eventsProcessed := 3, scrapingErrors := [],
           status := .completed } : ScrapingLogDoc).status = .failed) →
        ({ sourceWebsite := "https://a", startTime := 0, endTime := some 5,
           eventsFound := 5, eventsProcessed := 3, scrapingErrors := [],
           status := .completed } : ScrapingLogDoc).endTime ≠ none)) ∧
    saveLog { sourceWebsite := "https://a", startTime := 0, endTime := none,
              eventsFound := 1, eventsProcessed := 2, scrapingErrors := [],
              status := .running } 5 ≠
      .ok { sourceWebsite := "https://a", startTime := 0, endTime := none,
            eventsFound := 1, eventsProcessed := 2, scrapingErrors := [],
            status := .running } :=
  ⟨(runlog_save_invariants
      { sourceWebsite := "https://a", startTime := 0, endTime := none,
        eventsFound := 5, eventsProcessed := 3, scrapingErrors := [],
        status := .completed } 5).1 _ rfl,
   (runlog_save_invariants
      { sourceWebsite := "https://a", startTime := 0, endTime := none,
        eventsFound := 1, eventsProcessed := 2, scrapingErrors := [],
        status := .running } 5).2 (by decide) _⟩

/-! ## Scraper engine (src/src/scraping/ScraperEngine.ts)

The network and the HTML extraction are external effects: they are
abstracted as an environment mapping each source configuration to its fetch
outcome during the cycle. A thrown `axios.get` is `fetchError`; a fetched
page yields the records and per-record extraction errors `extractEvents`
produces from it (extraction never throws at the top level — each
container's failure is caught and recorded, ScraperEngine.ts lines
323-342). -/

/-- `ScrapingSourceConfig` (ScraperEngine.ts lines 18-34); the selector map,
date format and base URL only influence extraction, which is part of the
fetch environment here, so only the identifying fields are kept. -/
structure ScrapingSourceConfig where
  name : String
  url : String
  deriving DecidableEq, Repr

/-- `ScrapingResult` from `src/types`; errors are kept as their message
strings. -/
structure ScrapingResult where
  events : List EventData
  scrapingErrors : List String
  sourceUrl : String
  scrapedAt : Int
  deriving DecidableEq, Repr

/-- Outcome of `axios.get` + `extractEvents` for one source. -/
inductive FetchOutcome
  | fetchError (msg : String)
  | fetched (events : List EventData) (errors : List String)
  deriving DecidableEq, Repr

/-- The external world during one cycle. -/
abbrev Env := ScrapingSourceConfig → FetchOutcome

/-- `ScraperEngine.scrapeSource` (ScraperEngine.ts lines 262-305): fetch and
extract; a fetch failure is caught and returned as a result with no events
and one network error, never rethrown. -/
def scrapeSource (env : Env) (now : Int) (source : ScrapingSourceConfig) :
    ScrapingResult :=
  match env source with
  | .fetchError msg =>
    { events := [],
      scrapingErrors := ["Network error fetching " ++ source.url ++ ": " ++ msg],
      sourceUrl := source.url, scrapedAt := now }
  | .fetched evs errs =>
    { events := evs, scrapingErrors := errs, sourceUrl := source.url,
      scrapedAt := now }

/-- `ScraperEngine.scrapeAll` (ScraperEngine.ts lines 185-223): one result
per source, in configuration order. The surrounding try/catch is dead in
this embedding because `scrapeSource` already catches every failure. -/
def scrapeAll (env : Env) (now : Int) (sources : List ScrapingSourceConfig) :
    List ScrapingResult :=
  sources.map (scrapeSource env now)

/-- `EnhancedScrapingResult` (ScraperEngine.ts lines 11-13). -/
structure EnhancedScrapingResult where
  events : List EventData
  scrapingErrors : List String
  sourceUrl : String
  scrapedAt : Int
  changeDetection : Option ChangeDetectionResult
  deriving DecidableEq, Repr

/-- `ScraperEngine.scrapeSourceWithStatusManagement` (ScraperEngine.ts lines
228-257): scrape, then reconcile non-empty batches through the status
manager; reconciliation failures are caught and drop only the
`changeDetection` part, never the scrape result. -/
def scrapeSourceWithStatusManagement (env : Env) (now : Int) (store : Store)
    (nextId : Nat) (source : ScrapingSourceConfig) :
    EnhancedScrapingResult × Store × Nat :=
  let basic := scrapeSource env now source
  if 0 < basic.events.length then
    let p := processScrapedEvents store nextId now basic.events source.name
    ({ events := basic.events, scrapingErrors := basic.scrapingErrors,
       sourceUrl := basic.sourceUrl, scrapedAt := basic.scrapedAt,
       changeDetection := some p.1 }, p.2.1, p.2.2)
  else
    ({ events := basic.events, scrapingErrors := basic.scrapingErrors,
       sourceUrl := basic.sourceUrl, scrapedAt := basic.scrapedAt,
       changeDetection := none }, store, nextId)

/-- The per-source breaker configuration of `scrapeSourceResilient`
(ScraperEngine.ts lines 165-170). -/
def resilientCfg : CBConfig :=
  { failureThreshold := 3, recoveryTimeout := 300000, monitoringPeriod := 900000,
    successThreshold := 2 }

/-- The lazily-created named breakers of `CircuitBreakerManager`, as a total
map from breaker name to state (a missing breaker is a fresh one). -/
abbrev Breakers := String → CircuitBreaker

def updateBreaker (b : Breakers) (k : String) (cb : CircuitBreaker) : Breakers :=
  fun n => if n == k then cb else b n

/-- `ScraperEngine.scrapeAllResilient` (ScraperEngine.ts lines 81-155) with
`scrapeSourceResilient` (lines 160-180) inlined: each source runs behind
its named circuit breaker. The wrapped operation
(`withRetry(scrapeSourceWithStatusManagement)`) never throws — fetch and
reconciliation failures are caught inside it — so the operation outcome is
always `ok` and the only throw the outer catch can see is the breaker's
circuit-open error, which becomes a failed result with one categorized
error. -/
def scrapeAllResilient (env : Env) (now : Int) :
    List ScrapingSourceConfig → Breakers → Store → Nat →
      List EnhancedScrapingResult × Breakers × Store × Nat
  | [], breakers, store, nextId => ([], breakers, store, nextId)
  | s :: rest, breakers, store, nextId =>
    let key := "scraper-" ++ s.name
    let ex := cbExecute resilientCfg (breakers key) now .ok
    if ex.1 = .circuitOpen then
      let failed : EnhancedScrapingResult :=
        { events := [],
          scrapingErrors := ["Circuit breaker " ++ key ++ " is OPEN"],
          sourceUrl := s.url, scrapedAt := now, changeDetection := none }
      let r := scrapeAllResilient env now rest (updateBreaker breakers key ex.2)
        store nextId
      (failed :: r.1, r.2)
    else
      let one := scrapeSourceWithStatusManagement env now store nextId s
      let r := scrapeAllResilient env now rest (updateBreaker breakers key ex.2)
        one.2.1 one.2.2
      (one.1 :: r.1, r.2)

/-! ## Cycle scheduler (src/unnamed/part_007, class ScheduledScraper) -/

/-- Per-source entry of `OrchestrationResult.sourceResults`. -/
structure SourceResult where
  sourceName : String
  success : Bool
  eventsFound : Nat
  errors : Nat
  duration : Int
  deriving DecidableEq, Repr

/-- `OrchestrationResult` (part_007 lines 19-35). -/
structure OrchestrationResult where
  totalSources : Nat
  successfulSources : Nat
  failedSources : Nat
  totalEvents : Nat
  totalErrors : Nat
  duration : Int
  startTime : Int
  endTime : Int
  sourceResults : List SourceResult
  deriving DecidableEq, Repr

/-- `createEmptyResult` (part_007 lines 297-310). -/
def createEmptyResult (now : Int) : OrchestrationResult :=
  { totalSources := 0, successfulSources := 0, failedSources := 0,
    totalEvents := 0, totalErrors := 0, duration := 0, startTime := now,
    endTime := now, sourceResults := [] }

/-- One iteration of the source loop of `orchestrateScrapingSources`
(part_007 lines 193-276): create the run-log entry, scrape with status
management, mark the log completed with the counts, add each scraping
error to the log, and record the per-source result. The catch branch
(lines 245-275) fires only when a run-log write or the scrape pipeline
throws; `scrapeSourceWithStatusManagement` never throws and log writes are
modelled as reliable, so every source lands in the success branch with
`success := true` — a failed fetch surfaces only as `eventsFound = 0` with
a positive error count. -/
def orchestrateOne (env : Env) (now : Int) (store : Store) (nextId : Nat)
    (logs : List ScrapingLogDoc) (s : ScrapingSourceConfig) :
    SourceResult × Store × Nat × List ScrapingLogDoc :=
  let one := scrapeSourceWithStatusManagement env now store nextId s
  let log1 : ScrapingLogDoc :=
    { sourceWebsite := s.url, startTime := now, endTime := some now,
      eventsFound := one.1.events.length, eventsProcessed := one.1.events.length,
      scrapingErrors := [], status := .completed }
  let log2 := one.1.scrapingErrors.foldl addErrorLog log1
  ({ sourceName := s.name, success := true, eventsFound := one.1.events.length,
     errors := one.1.scrapingErrors.length, duration := 0 },
   one.2.1, one.2.2, logs ++ [log2])

/-- Accumulator of the source loop: per-source results plus the running
totals `totalEvents`, `totalErrors`, `successfulSources`. -/
structure LoopAcc where
  sourceResults : List SourceResult
  totalEvents : Nat
  totalErrors : Nat
  successfulSources : Nat
  deriving DecidableEq, Repr

def orchestrateLoop (env : Env) (now : Int) :
    List ScrapingSourceConfig → Store → Nat → List ScrapingLogDoc →
      LoopAcc × Store × Nat × List ScrapingLogDoc
  | [], store, nextId, logs =>
    ({ sourceResults := [], totalEvents := 0, totalErrors := 0,
       successfulSources := 0 }, store, nextId, logs)
  | s :: rest, store, nextId, logs =>
    let one := orchestrateOne env now store nextId logs s
    let r := orchestrateLoop env now rest one.2.1 one.2.2.1 one.2.2.2
    ({ sourceResults := one.1 :: r.1.sourceResults,
       totalEvents := one.1.eventsFound + r.1.totalEvents,
       totalErrors := one.1.errors + r.1.totalErrors,
       successfulSources := 1 + r.1.successfulSources }, r.2)

/-- `ScheduledScraper.orchestrateScrapingSources` (part_007 lines 176-292). -/
def orchestrateScrapingSources (env : Env) (now : Int)
    (sources : List ScrapingSourceConfig) (store : Store) (nextId : Nat)
    (logs : List ScrapingLogDoc) :
    OrchestrationResult × Store × Nat × List ScrapingLogDoc :=
  match sources with
  | [] => (createEmptyResult now, store, nextId, logs)
  | _ =>
    let r := orchestrateLoop env now sources store nextId logs
    ({ totalSources := sources.length,
       successfulSources := r.1.successfulSources,
       failedSources := sources.length - r.1.successfulSources,
       totalEvents := r.1.totalEvents, totalErrors := r.1.totalErrors,
       duration := 0, startTime := now, endTime := now,
       sourceResults := r.1.sourceResults }, r.2)

/-- The scheduler fields relevant to cycle mutual exclusion
(part_007 lines 44-46): the in-progress flag and the retained last result. -/
structure SchedulerState where
  isRunning : Bool
  lastRunResult : Option OrchestrationResult
  deriving DecidableEq, Repr

/-- The synchronous prefix of `executeScrapingCycle` (part_007 lines
127-133): a call that observes a cycle in progress returns the previous
result (or an empty result) immediately; otherwise it sets the in-progress
flag and proceeds to run. -/
def executeCycleBegin (st : SchedulerState) (now : Int) :
    Option OrchestrationResult × SchedulerState :=
  if st.isRunning then
    (some (st.lastRunResult.getD (createEmptyResult now)), st)
  else (none, { st with isRunning := true })

/-- Completion of `executeScrapingCycle` (lines 138-139 and the `finally`
at 168-170): record the cycle result and clear the flag. The catch branch
(lines 147-167) records a failed result the same way. -/
def executeCycleFinish (_ : SchedulerState) (r : OrchestrationResult) :
    SchedulerState :=
  { isRunning := false, lastRunResult := some r }

/-- The overlap scenario: call A begins, call B begins while A's run (with
eventual cycle result `r`) is still in flight, then A finishes. Returns
(A's result, B's result, number of runs started, final state). -/
def overlappedCycleCalls (st : SchedulerState) (now : Int)
    (r : OrchestrationResult) :
    OrchestrationResult × OrchestrationResult × Nat × SchedulerState :=
  match executeCycleBegin st now with
  | (some prevA, st1) =>
    -- A itself observed a cycle in progress: no run starts at all
    match executeCycleBegin st1 now with
    | (some prevB, st2) => (prevA, prevB, 0, st2)
    | (none, st2) => (prevA, createEmptyResult now, 1, executeCycleFinish st2 r)
  | (none, st1) =>
    -- A started the single run; B arrives while it is in flight
    match executeCycleBegin st1 now with
    | (some prevB, st2) => (r, prevB, 1, executeCycleFinish st2 r)
    | (none, st2) => (r, r, 2, executeCycleFinish st2 r)

/-! ## C5: scheduler overlap -/

/-- An idle scheduler that has never completed a cycle. -/
def schedIdle : SchedulerState := { isRunning := false, lastRunResult := none }

/-- A non-trivial cycle result. -/
def rBig : OrchestrationResult :=
  { totalSources := 2, successfulSources := 2, failedSources := 0,
    totalEvents := 3, totalErrors := 1, duration := 0, startTime := 7,
    endTime := 7, sourceResults := [] }

/-- Counterexample to C5 as stated: the skipped second call returns the
result of the last *completed* cycle (here: the empty result, no cycle
having completed before), not the first call's eventual result. -/
theorem cycle_overlap_stale_result_counterexample :
    (overlappedCycleCalls schedIdle 5 rBig).1 = rBig ∧
    (overlappedCycleCalls schedIdle 5 rBig).2.1 = createEmptyResult 5 ∧
    (overlappedCycleCalls schedIdle 5 rBig).2.1 ≠
      (overlappedCycleCalls schedIdle 5 rBig).1 ∧
    (overlappedCycleCalls schedIdle 5 rBig).2.2.1 = 1 := by
  decide

/-- C5 (amended): two overlapping `executeCycle` calls on an idle scheduler
start exactly one run; the first call returns the run's result; the second
observes the in-progress flag without invoking the runner and returns the
previous completed cycle's result (or the empty result when none exists);
afterwards the run's result is retained as the last result. -/
theorem cycle_overlap_single_run (st : SchedulerState) (now : Int)
    (r : OrchestrationResult) (hidle : st.isRunning = false) :
    overlappedCycleCalls st now r =
      (r, st.lastRunResult.getD (createEmptyResult now), 1,
       { isRunning := false, lastRunResult := some r }) := by
  unfold overlappedCycleCalls executeCycleBegin executeCycleFinish
  simp [hidle]

/-- Witness for the amended C5. -/
theorem cycle_overlap_single_run_witness :
    overlappedCycleCalls schedIdle 5 rBig =
      (rBig, (schedIdle.lastRunResult).getD (createEmptyResult 5), 1,
       { isRunning := false, lastRunResult := some rBig }) :=
  cycle_overlap_single_run schedIdle 5 rBig rfl

/-! ## C7: source isolation in a cycle -/

def cxS1 : ScrapingSourceConfig := { name := "s1", url := "https://one" }

def cxS2 : ScrapingSourceConfig := { name := "s2", url := "https://two" }

def dW2 : EventData := { dW with originalEventUrl := "https://a/e2" }

def dW3 : EventData := { dW with originalEventUrl := "https://a/e3" }

/-- An environment where source s1's fetch always errors and s2 succeeds
with 3 records. -/
def cxEnv : Env := fun s =>
  if s.name == "s1" then .fetchError "boom" else .fetched [dW, dW2, dW3] []

/-- Counterexample to C7 as stated: with s1 failing and s2 yielding 3
records, the cycle reports successfulSources = 2 and failedSources = 0 (not
1 and 1): a fetch failure is captured inside the per-source result and the
source still counts as successful. -/
theorem source_isolation_counterexample :
    (orchestrateScrapingSources cxEnv 7 [cxS1, cxS2] [] 0 []).1.successfulSources = 2 ∧
    (orchestrateScrapingSources cxEnv 7 [cxS1, cxS2] [] 0 []).1.failedSources = 0 ∧
    (orchestrateScrapingSources cxEnv 7 [cxS1, cxS2] [] 0 []).1.totalEvents = 3 ∧
    (orchestrateScrapingSources cxEnv 7 [cxS1, cxS2] [] 0 []).1.totalErrors = 1 ∧
    ¬ ((orchestrateScrapingSources cxEnv 7 [cxS1, cxS2] [] 0 []).1.successfulSources = 1 ∧
       (orchestrateScrapingSources cxEnv 7 [cxS1, cxS2] [] 0 []).1.failedSources = 1) := by
  decide

/-- C7 (amended): for a two-source cycle where source 1's fetch always
errors and source 2 succeeds with 3 records, the cycle result has
successfulSources = 2, failedSources = 0, totalEvents = 3 and
totalErrors = 1: the failing fetch surfaces as a per-source result with
success = true, zero events found and one recorded error, while the other
source completes unaffected. -/
theorem fetch_failure_still_successful_source (env : Env) (now : Int)
    (store : Store) (nextId : Nat) (logs : List ScrapingLogDoc)
    (s1 s2 : ScrapingSourceConfig) (m : String) (a b c : EventData)
    (h1 : env s1 = .fetchError m) (h2 : env s2 = .fetched [a, b, c] []) :
    (orchestrateScrapingSources env now [s1, s2] store nextId logs).1.successfulSources = 2 ∧
    (orchestrateScrapingSources env now [s1, s2] store nextId logs).1.failedSources = 0 ∧
    (orchestrateScrapingSources env now [s1, s2] store nextId logs).1.totalEvents = 3 ∧
    (orchestrateScrapingSources env now [s1, s2] store nextId logs).1.totalErrors = 1 ∧
    (orchestrateScrapingSources env now [s1, s2] store nextId logs).1.sourceResults.map
        (fun x => (x.success, x.eventsFound, x.errors)) =
      [(true, 0, 1), (true, 3, 0)] := by
  simp only [orchestrateScrapingSources, orchestrateLoop, orchestrateOne,
    scrapeSourceWithStatusManagement, scrapeSource, h1, h2]
  simp

/-- Witness for the amended C7 at the concrete environment. -/
theorem fetch_failure_still_successful_source_witness :
    (orchestrateScrapingSources cxEnv 7 [cxS1, cxS2] [] 0 []).1.successfulSources = 2 ∧
    (orchestrateScrapingSources cxEnv 7 [cxS1, cxS2] [] 0 []).1.failedSources = 0 ∧
    (orchestrateScrapingSources cxEnv 7 [cxS1, cxS2] [] 0 []).1.totalEvents = 3 ∧
    (orchestrateScrapingSources cxEnv 7 [cxS1, cxS2] [] 0 []).1.totalErrors = 1 ∧
    (orchestrateScrapingSources cxEnv 7 [cxS1, cxS2] [] 0 []).1.sourceResults.map
        (fun x => (x.success, x.eventsFound, x.errors)) =
      [(true, 0, 1), (true, 3, 0)] :=
  fetch_failure_still_successful_source cxEnv 7 [] 0 [] cxS1 cxS2 "boom" dW dW2 dW3
    rfl rfl

/-! ## C9: error isolation of scrapeAll and scrapeAllResilient -/

theorem cbExecute_circuitOpen_iff (cfg : CBConfig) (cb : CircuitBreaker)
    (now : Int) (o : OpOutcome) :
    (cbExecute cfg cb now o).1 = .circuitOpen ↔
      cb.state = .opened ∧ now - cb.lastFailureTime < cfg.recoveryTimeout := by
  unfold cbExecute
  by_cases hop : cb.state = .opened
  · rw [if_pos hop]
    by_cases hrt : cfg.recoveryTimeout ≤ now - cb.lastFailureTime
    · rw [if_pos hrt]
      constructor
      · intro h; cases o <;> simp [runOp] at h
      · rintro ⟨_, hlt⟩; omega
    · rw [if_neg hrt]
      exact ⟨fun _ => ⟨hop, by omega⟩, fun _ => rfl⟩
  · rw [if_neg hop]
    constructor
    · intro h; cases o <;> simp [runOp] at h
    · rintro ⟨h1, _⟩; exact absurd h1 hop

theorem scraperKey_inj {a b : String} (h : "scraper-" ++ a = "scraper-" ++ b) :
    a = b := by
  have hd := congrArg String.data h
  simp only [String.data_append] at hd
  exact String.ext (List.append_cancel_left hd)


theorem sswsm_events_errors (env : Env) (now : Int) (store : Store)
    (nextId : Nat) (s : ScrapingSourceConfig) :
    (scrapeSourceWithStatusManagement env now store nextId s).1.events =
      (scrapeSource env now s).events ∧
    (scrapeSourceWithStatusManagement env now store nextId s).1.scrapingErrors =
      (scrapeSource env now s).scrapingErrors := by
  by_cases h : 0 < (scrapeSource env now s).events.length <;>
    simp [scrapeSourceWithStatusManagement, h]

/-- The per-source outcome of one resilient scrape, as observed in the
result's events and error lists: a circuit-open fast failure when that
source's breaker is open and cooling down, the plain scrape result
otherwise. It depends only on the environment's answer for this source and
this source's own breaker. -/
def resilientEvErr (env : Env) (now : Int) (cb : CircuitBreaker)
    (s : ScrapingSourceConfig) : List EventData × List String :=
  if cb.state = .opened ∧ now - cb.lastFailureTime < resilientCfg.recoveryTimeout then
    ([], ["Circuit breaker " ++ ("scraper-" ++ s.name) ++ " is OPEN"])
  else ((scrapeSource env now s).events, (scrapeSource env now s).scrapingErrors)

theorem scrapeAllResilient_perSource (env : Env) (now : Int) :
    ∀ (sources : List ScrapingSourceConfig) (breakers : Breakers) (store : Store)
      (nextId : Nat),
      (sources.map (fun s => s.name)).Nodup →
      (scrapeAllResilient env now sources breakers store nextId).1.length =
        sources.length ∧
      ∀ k : Nat,
        ((scrapeAllResilient env now sources breakers store nextId).1.get? k).map
            (fun r => (r.events, r.scrapingErrors)) =
          (sources.get? k).map (fun s =>
            resilientEvErr env now (breakers ("scraper-" ++ s.name)) s) := by
  intro sources
  induction sources with
  | nil =>
    intro breakers store nextId _
    exact ⟨rfl, fun k => by simp [scrapeAllResilient]⟩
  | cons s rest ih =>
    intro breakers store nextId hnd
    rw [List.map_cons, List.nodup_cons] at hnd
    have hbr : ∀ s' ∈ rest,
        updateBreaker breakers ("scraper-" ++ s.name)
          (cbExecute resilientCfg (breakers ("scraper-" ++ s.name)) now .ok).2
          ("scraper-" ++ s'.name) =
        breakers ("scraper-" ++ s'.name) := by
      intro s' hs'
      unfold updateBreaker
      have hne : ¬ ("scraper-" ++ s'.name) = ("scraper-" ++ s.name) := by
        intro h
        exact hnd.1 (scraperKey_inj h ▸
          List.mem_map_of_mem (fun x => x.name) hs')
      simp [hne]
    by_cases hopen :
        (cbExecute resilientCfg (breakers ("scraper-" ++ s.name)) now .ok).1 =
          .circuitOpen
    · have hred : scrapeAllResilient env now (s :: rest) breakers store nextId =
          (({ events := [],
              scrapingErrors :=
                ["Circuit breaker " ++ ("scraper-" ++ s.name) ++ " is OPEN"],
              sourceUrl := s.url, scrapedAt := now,
              changeDetection := none } : EnhancedScrapingResult) ::
            (scrapeAllResilient env now rest
              (updateBreaker breakers ("scraper-" ++ s.name)
                (cbExecute resilientCfg (breakers ("scraper-" ++ s.name)) now .ok).2)
              store nextId).1,
           (scrapeAllResilient env now rest
              (updateBreaker breakers ("scraper-" ++ s.name)
                (cbExecute resilientCfg (breakers ("scraper-" ++ s.name)) now .ok).2)
              store nextId).2) := by
        rw [scrapeAllResilient]
        simp only [hopen, if_true]
      have ihr := ih (updateBreaker breakers ("scraper-" ++ s.name)
          (cbExecute resilientCfg (breakers ("scraper-" ++ s.name)) now .ok).2)
        store nextId hnd.2
      refine ⟨by rw [hred]; simp only [List.length_cons, ihr.1], ?_⟩
      intro k
      rw [hred]
      cases k with
      | zero =>
        have hcond := (cbExecute_circuitOpen_iff resilientCfg
          (breakers ("scraper-" ++ s.name)) now .ok).mp hopen
        simp only [List.get?_cons_zero, Option.map_some']
        unfold resilientEvErr
        rw [if_pos hcond]
      | succ k =>
        simp only [List.get?_cons_succ]
        rw [ihr.2 k]
        cases hrk : rest.get? k with
        | none => simp
        | some sk =>
          simp only [Option.map_some']
          rw [hbr sk (List.get?_mem hrk)]
    · have hred : scrapeAllResilient env now (s :: rest) breakers store nextId =
          ((scrapeSourceWithStatusManagement env now store nextId s).1 ::
            (scrapeAllResilient env now rest
              (updateBreaker breakers ("scraper-" ++ s.name)
                (cbExecute resilientCfg (breakers ("scraper-" ++ s.name)) now .ok).2)
              (scrapeSourceWithStatusManagement env now store nextId s).2.1
              (scrapeSourceWithStatusManagement env now store nextId s).2.2).1,
           (scrapeAllResilient env now rest
              (updateBreaker breakers ("scraper-" ++ s.name)
                (cbExecute resilientCfg (breakers ("scraper-" ++ s.name)) now .ok).2)
              (scrapeSourceWithStatusManagement env now store nextId s).2.1
              (scrapeSourceWithStatusManagement env now store nextId s).2.2).2) := by
        rw [scrapeAllResilient]
        simp only [hopen, if_false]
      have ihr := ih (updateBreaker breakers ("scraper-" ++ s.name)
          (cbExecute resilientCfg (breakers ("scraper-" ++ s.name)) now .ok).2)
        (scrapeSourceWithStatusManagement env now store nextId s).2.1
        (scrapeSourceWithStatusManagement env now store nextId s).2.2 hnd.2
      refine ⟨by rw [hred]; simp only [List.length_cons, ihr.1], ?_⟩
      intro k
      rw [hred]
      cases k with
      | zero =>
        have hcond := (cbExecute_circuitOpen_iff resilientCfg
          (breakers ("scraper-" ++ s.name)) now .ok).not.mp hopen
        simp only [List.get?_cons_zero, Option.map_some']
        unfold resilientEvErr
        rw [if_neg hcond]
        have hse := sswsm_events_errors env now store nextId s
        rw [hse.1, hse.2]
      | succ k =>
        simp only [List.get?_cons_succ]
        rw [ihr.2 k]
        cases hrk : rest.get? k with
        | none => simp
        | some sk =>
          simp only [Option.map_some']
          rw [hbr sk (List.get?_mem hrk)]

/-- C9: `scrapeAll` and `scrapeAllResilient` return exactly one result per
configured source, in configuration order; a source whose fetch fails
contributes a result with no events and at least one recorded error; each
source's result is a function of the environment's answer for that source
(and, for the resilient variant, that source's own breaker) alone, so a
failure of one source leaves the other sources' results unaffected. Both
functions are total in this embedding — every failure of the underlying
operations is caught and converted into a result, never rethrown. -/
theorem scrape_all_error_isolation (env : Env) (now : Int)
    (sources : List ScrapingSourceConfig) (breakers : Breakers) (store : Store)
    (nextId : Nat) (hnames : (sources.map (fun s => s.name)).Nodup) :
    (scrapeAll env now sources).length = sources.length ∧
    (∀ k : Nat, (scrapeAll env now sources).get? k =
      (sources.get? k).map (scrapeSource env now)) ∧
    (∀ (s : ScrapingSourceConfig) (msg : String), env s = .fetchError msg →
      (scrapeSource env now s).events = [] ∧
      1 ≤ (scrapeSource env now s).scrapingErrors.length) ∧
    (scrapeAllResilient env now sources breakers store nextId).1.length =
      sources.length ∧
    (∀ k : Nat,
      ((scrapeAllResilient env now sources breakers store nextId).1.get? k).map
          (fun r => (r.events, r.scrapingErrors)) =
        (sources.get? k).map (fun s =>
          resilientEvErr env now (breakers ("scraper-" ++ s.name)) s)) ∧
    (∀ (s : ScrapingSourceConfig) (msg : String) (cb : CircuitBreaker),
      env s = .fetchError msg →
      (resilientEvErr env now cb s).1 = [] ∧
      1 ≤ (resilientEvErr env now cb s).2.length) := by
  refine ⟨?_, ?_, ?_, ?_, ?_, ?_⟩
  · exact List.length_map _ _
  · intro k
    unfold scrapeAll
    exact List.get?_map _ _ _
  · intro s msg h
    unfold scrapeSource
    rw [h]
    exact ⟨rfl, by simp⟩
  · exact (scrapeAllResilient_perSource env now sources breakers store nextId hnames).1
  · exact (scrapeAllResilient_perSource env now sources breakers store nextId hnames).2
  · intro s msg cb h
    unfold resilientEvErr
    split
    · exact ⟨rfl, by simp⟩
    · unfold scrapeSource
      rw [h]
      exact ⟨rfl, by simp⟩

/-- Witness for C9 at a concrete two-source configuration where the first
source's fetch fails. -/
theorem scrape_all_error_isolation_witness :
    (scrapeAll cxEnv 7 [cxS1, cxS2]).length = 2 ∧
    (scrapeAll cxEnv 7 [cxS1, cxS2]).get? 0 =
      ([cxS1, cxS2].get? 0).map (scrapeSource cxEnv 7) ∧
    (scrapeSource cxEnv 7 cxS1).events = [] ∧
    1 ≤ (scrapeSource cxEnv 7 cxS1).scrapingErrors.length ∧
    (scrapeAllResilient cxEnv 7 [cxS1, cxS2] (fun _ => cbInit) [] 0).1.length = 2 := by
  have h := scrape_all_error_isolation cxEnv 7 [cxS1, cxS2] (fun _ => cbInit) [] 0
    (by decide)
  have h3 := h.2.2.1 cxS1 "boom" rfl
  exact ⟨h.1, h.2.1 0, h3.1, h3.2, h.2.2.2.1⟩

/-! ## C6: idempotence of reconciliation — supporting lemmas -/

theorem zip_self_fst_eq_snd {l : List String} {p : String × String}
    (h : p ∈ List.zip l l) : p.1 = p.2 := by
  induction l with
  | nil => cases h
  | cons a t ih =>
    rw [List.zip_cons_cons] at h
    rcases List.mem_cons.mp h with h | h
    · subst h; rfl
    · exact ih h

theorem tagsMatch_refl (l : List String) : tagsMatch l l = true := by
  unfold tagsMatch
  rw [Bool.and_eq_true]
  refine ⟨by simp, ?_⟩
  rw [List.all_eq_true]
  intro p hp
  rw [zip_self_fst_eq_snd hp]
  simp

theorem detectEventChanges_assign (e : IEvent) (u : EventData) (now : Int) :
    detectEventChanges (assignUpdated e u now) u = false := by
  unfold detectEventChanges assignUpdated
  simp [tagsMatch_refl]

theorem detectEventChanges_new (d : EventData) (j : Nat) :
    detectEventChanges (newFromData d j) d = false := by
  unfold detectEventChanges newFromData
  simp [tagsMatch_refl]

theorem detectEventChanges_refresh (x : IEvent) (t : Int) (s : EventData) :
    detectEventChanges { x with lastScrapedAt := t } s = detectEventChanges x s := rfl

/-- First fresh record with the given key, unique when batch keys are
distinct (the fresh-set map lookup of pass 2, seen from a store record). -/
def batchFind (scraped : List EventData) (url : String) : Option EventData :=
  scraped.find? (fun s => s.originalEventUrl == url)

theorem batchFind_mem {scraped : List EventData} {url : String} {s : EventData}
    (h : batchFind scraped url = some s) : s ∈ scraped ∧ s.originalEventUrl = url := by
  refine ⟨List.mem_of_find?_eq_some h, ?_⟩
  have := List.find?_some h
  exact of_decide_eq_true this

theorem batchFind_eq_none {scraped : List EventData} {url : String} :
    batchFind scraped url = none ↔ ∀ s ∈ scraped, s.originalEventUrl ≠ url := by
  rw [batchFind, List.find?_eq_none]
  constructor
  · intro h s hs
    have := h s hs
    simpa using this
  · intro h s hs
    simpa using h s hs

theorem batchFind_self {scraped : List EventData}
    (hkeys : (scraped.map (fun s => s.originalEventUrl)).Nodup) {s : EventData}
    (hs : s ∈ scraped) : batchFind scraped s.originalEventUrl = some s := by
  induction scraped with
  | nil => cases hs
  | cons a rest ih =>
    rw [List.map_cons, List.nodup_cons] at hkeys
    rcases List.mem_cons.mp hs with h | h
    · subst h
      exact List.find?_cons_of_pos _ (by simp)
    · have hne : a.originalEventUrl ≠ s.originalEventUrl := by
        intro he
        exact hkeys.1 (he ▸ List.mem_map_of_mem _ h)
      unfold batchFind at ih ⊢
      rw [List.find?_cons_of_neg _ (by simp [hne])]
      exact ih hkeys.2 h

theorem scrapedHas_false_iff {scraped : List EventData} {url : String} :
    scrapedHas scraped url = false ↔ batchFind scraped url = none := by
  rw [batchFind_eq_none]
  constructor
  · intro h s hs he
    have : scrapedHas scraped url = true := scrapedHas_iff.mpr ⟨s, hs, he⟩
    rw [h] at this
    cases this
  · intro h
    by_cases hh : scrapedHas scraped url = true
    · obtain ⟨s, hs, he⟩ := scrapedHas_iff.mp hh
      exact absurd he (h s hs)
    · simpa using hh

theorem mem_newsOf {em : List IEvent} {scraped : List EventData} {d : EventData} :
    d ∈ newsOf em scraped ↔
      d ∈ scraped ∧ lookupUrl em d.originalEventUrl = none := by
  rw [newsOf, List.mem_filter]
  simp [Option.isNone_iff_eq_none]

theorem mem_newDocs {ds : List EventData} :
    ∀ {nid : Nat} {x : IEvent}, x ∈ newDocs ds nid →
      ∃ d ∈ ds, ∃ j, nid ≤ j ∧ x = newFromData d j := by
  induction ds with
  | nil => intro nid x h; cases h
  | cons d rest ih =>
    intro nid x h
    rcases List.mem_cons.mp h with h | h
    · exact ⟨d, List.mem_cons_self _ _, nid, Nat.le_refl _, h⟩
    · obtain ⟨d', hd', j, hj, hx⟩ := ih h
      exact ⟨d', List.mem_cons_of_mem _ hd', j, Nat.le_of_succ_le hj, hx⟩

theorem newDocs_of_mem {ds : List EventData} :
    ∀ {nid : Nat} {d : EventData}, d ∈ ds →
      ∃ j, nid ≤ j ∧ newFromData d j ∈ newDocs ds nid := by
  induction ds with
  | nil => intro nid d h; cases h
  | cons a rest ih =>
    intro nid d h
    rcases List.mem_cons.mp h with h | h
    · subst h
      exact ⟨nid, Nat.le_refl _, List.mem_cons_self _ _⟩
    · obtain ⟨j, hj, hm⟩ := @ih (nid + 1) d h
      exact ⟨j, Nat.le_of_succ_le hj, List.mem_cons_of_mem _ hm⟩

theorem newDocs_ids_nodup {ds : List EventData} :
    ∀ {nid : Nat}, ((newDocs ds nid).map (fun x => x.id)).Nodup := by
  induction ds with
  | nil => intro nid; simp [newDocs]
  | cons d rest ih =>
    intro nid
    rw [newDocs, List.map_cons, List.nodup_cons]
    refine ⟨?_, ih⟩
    intro h
    obtain ⟨x, hx, hid⟩ := List.mem_map.mp h
    have := mem_newDocs_id hx
    have hidn : (newFromData d nid).id = nid := rfl
    rw [hidn] at hid
    omega

/-! Specialized skip/write lemmas for the three writers. -/

theorem writeFold_refresh_skip {em : List IEvent} {now : Int}
    {scraped : List EventData} {y : IEvent}
    (h : ∀ s ∈ scraped, ∀ e, lookupUrl em s.originalEventUrl = some e →
      detectEventChanges e s = false → e.id = y.id → False) :
    writeFold (refreshWrite em now) scraped y = y := by
  apply writeFold_fix
  intro s hs i doc hw hi
  exfalso
  unfold refreshWrite at hw
  split at hw
  next e hl =>
    split at hw
    · cases hw
    next hd =>
      cases hw
      refine h s hs e hl ?_ hi
      cases hb : detectEventChanges e s
      · rfl
      · exact absurd hb hd
  next => cases hw

theorem writeFold_upd_skip {now : Int} {pairs : List (IEvent × EventData)}
    {y : IEvent} (h : ∀ p ∈ pairs, p.1.id = y.id → False) :
    writeFold (updWrite now) pairs y = y := by
  apply writeFold_fix
  intro p hp i doc hw hi
  cases hw
  exact (h p hp hi).elim

theorem writeFold_inact_skip {now : Int} {l : List IEvent} {y : IEvent}
    (h : ∀ e ∈ l, e.id = y.id → False) :
    writeFold (inactWrite now) l y = y := by
  apply writeFold_fix
  intro e he i doc hw hi
  cases hw
  exact (h e he hi).elim

theorem writeFold_refresh_hit {em : List IEvent} {now : Int}
    {scraped : List EventData} {y e : IEvent} {s0 : EventData}
    (hs0 : s0 ∈ scraped) (hlook : lookupUrl em s0.originalEventUrl = some e)
    (hdet : detectEventChanges e s0 = false) (hid : e.id = y.id)
    (huniq : ∀ s' ∈ scraped, ∀ e', lookupUrl em s'.originalEventUrl = some e' →
      e'.id = y.id → detectEventChanges e' s' = false →
      ({ e' with lastScrapedAt := now } : IEvent) = { e with lastScrapedAt := now }) :
    writeFold (refreshWrite em now) scraped y = { e with lastScrapedAt := now } := by
  refine writeFold_write hs0 ?_ hid ?_
  · unfold refreshWrite
    simp [hlook, hdet, hid]
  · intro s' hs' i doc hw hi
    unfold refreshWrite at hw
    split at hw
    next e' hl =>
      split at hw
      · cases hw
      next hd =>
        cases hw
        exact huniq s' hs' e' hl hi (by
          cases hdd : detectEventChanges e' s'
          · rfl
          · exact absurd hdd hd)
    next => cases hw

theorem writeFold_upd_hit {now : Int} {pairs : List (IEvent × EventData)}
    {y e : IEvent} {u : EventData}
    (hmem : (e, u) ∈ pairs) (hid : e.id = y.id)
    (huniq : ∀ p ∈ pairs, p.1.id = y.id →
      assignUpdated p.1 p.2 now = assignUpdated e u now) :
    writeFold (updWrite now) pairs y = assignUpdated e u now := by
  refine writeFold_write hmem ?_ hid ?_
  · unfold updWrite; rw [hid]
  · intro p hp i doc hw hi
    cases hw
    exact huniq p hp hi

theorem writeFold_inact_hit {now : Int} {l : List IEvent} {y e : IEvent}
    (hmem : e ∈ l) (hid : e.id = y.id)
    (huniq : ∀ x ∈ l, x.id = y.id →
      ({ x with status := EventStatus.inactive, lastScrapedAt := now } : IEvent) =
      { e with status := EventStatus.inactive, lastScrapedAt := now }) :
    writeFold (inactWrite now) l y =
      { e with status := EventStatus.inactive, lastScrapedAt := now } := by
  refine writeFold_write hmem ?_ hid ?_
  · unfold inactWrite; rw [hid]
  · intro x hx i doc hw hi
    cases hw
    exact huniq x hx hi

/-- The net effect of one reconciliation pass on one pre-existing store
record (derived characterization, proved equal to the pipeline in
`pass1_char`): a record of another source is untouched; a matched record is
overwritten with the fresh data (status `updated`) if any compared field
differs, else only its `lastScrapedAt` is refreshed; an absent record is
marked inactive unless already `inactive`/`imported`. -/
def reconcileT (scraped : List EventData) (now : Int) (src : String)
    (x : IEvent) : IEvent :=
  if x.sourceWebsite == src then
    match batchFind scraped x.originalEventUrl with
    | some s =>
      if detectEventChanges x s then assignUpdated x s now
      else { x with lastScrapedAt := now }
    | none =>
      if x.status != EventStatus.inactive && x.status != EventStatus.imported then
        { x with status := .inactive, lastScrapedAt := now }
      else x
  else x

theorem reconcileT_id (scraped : List EventData) (now : Int) (src : String)
    (x : IEvent) : (reconcileT scraped now src x).id = x.id := by
  unfold reconcileT
  split
  · split
    next s hb => split <;> rfl
    next hb => split <;> rfl
  · rfl

theorem reconcileT_url (scraped : List EventData) (now : Int) (src : String)
    (x : IEvent) :
    (reconcileT scraped now src x).originalEventUrl = x.originalEventUrl := by
  unfold reconcileT
  split
  · split
    next s hb =>
      split
      · exact (batchFind_mem hb).2
      · rfl
    next hb => split <;> rfl
  · rfl

theorem reconcileT_src {scraped : List EventData} {src : String}
    (hsrc : ∀ s ∈ scraped, s.sourceWebsite = src) (now : Int) (x : IEvent) :
    (reconcileT scraped now src x).sourceWebsite = x.sourceWebsite := by
  unfold reconcileT
  split
  next hx =>
    split
    next s hb =>
      split
      · have h1 := hsrc s (batchFind_mem hb).1
        have h2 : x.sourceWebsite = src := by simpa using hx
        show s.sourceWebsite = x.sourceWebsite
        rw [h1, h2]
      · rfl
    next hb => split <;> rfl
  next => rfl

/-- The pointwise form of the first reconciliation pass on a pre-existing
store record: the three write stages amount to `reconcileT`. -/
theorem pass1_pointwise (store : Store) (now : Int) (scraped : List EventData)
    (src : String)
    (hkeys : (scraped.map (fun s => s.originalEventUrl)).Nodup)
    (hekeys : ((findBySource store src).map (fun x => x.originalEventUrl)).Nodup)
    (hids : (store.map (fun x => x.id)).Nodup)
    {x : IEvent} (hx : x ∈ store) :
    writeFold (inactWrite now) (inactivesOf (findBySource store src) scraped)
      (writeFold (updWrite now) (updsOf (findBySource store src) scraped)
        (writeFold (refreshWrite (findBySource store src) now) scraped x)) =
    reconcileT scraped now src x := by
  have hem : ∀ e ∈ findBySource store src, e ∈ store ∧ e.sourceWebsite = src :=
    fun e he => mem_findBySource.mp he
  have hiduniq : ∀ e ∈ findBySource store src, e.id = x.id → e = x :=
    fun e he hid => store_id_inj hids (hem e he).1 hx hid
  by_cases hxsrc : x.sourceWebsite = src
  · have hxem : x ∈ findBySource store src := mem_findBySource.mpr ⟨hx, hxsrc⟩
    cases hb : batchFind scraped x.originalEventUrl with
    | none =>
      have habs : ∀ s ∈ scraped, s.originalEventUrl ≠ x.originalEventUrl :=
        batchFind_eq_none.mp hb
      have hR : writeFold (refreshWrite (findBySource store src) now) scraped x = x := by
        apply writeFold_refresh_skip
        intro s hs e hl _ hid
        have he := hiduniq e (lookupUrl_mem hl).1 hid
        exact habs s hs (he ▸ (lookupUrl_mem hl).2).symm
      have hU : writeFold (updWrite now)
          (updsOf (findBySource store src) scraped) x = x := by
        apply writeFold_upd_skip
        intro p hp hid
        obtain ⟨hpm, _, hps, hpu⟩ := mem_updsOf hp
        have he := hiduniq p.1 hpm hid
        exact habs p.2 hps (by rw [← hpu, he])
      rw [hR, hU]
      by_cases hst : (x.status != EventStatus.inactive &&
          x.status != EventStatus.imported) = true
      · have hxin : x ∈ inactivesOf (findBySource store src) scraped := by
          rw [inactivesOf, List.mem_filter]
          refine ⟨hxem, ?_⟩
          have hhas : scrapedHas scraped x.originalEventUrl = false :=
            scrapedHas_false_iff.mpr hb
          rw [Bool.and_eq_true, Bool.and_eq_true]
          rw [Bool.and_eq_true] at hst
          exact ⟨⟨by rw [hhas]; rfl, hst.1⟩, hst.2⟩
        have hI : writeFold (inactWrite now)
            (inactivesOf (findBySource store src) scraped) x =
            { x with status := EventStatus.inactive, lastScrapedAt := now } :=
          writeFold_inact_hit hxin rfl
            (fun e he hid => by rw [hiduniq e (mem_inactivesOf he).1 hid])
        rw [hI]
        unfold reconcileT
        simp only [hxsrc, beq_self_eq_true, if_true, hb, hst]
      · have hI : writeFold (inactWrite now)
            (inactivesOf (findBySource store src) scraped) x = x := by
          apply writeFold_inact_skip
          intro e he hid
          have he' := hiduniq e (mem_inactivesOf he).1 hid
          obtain ⟨_, _, h1, h2⟩ := mem_inactivesOf he
          rw [he'] at h1 h2
          apply hst
          rw [Bool.and_eq_true]
          exact ⟨by simp [h1], by simp [h2]⟩
        rw [hI]
        unfold reconcileT
        simp only [hxsrc, beq_self_eq_true, if_true, hb, hst, if_neg]
        simp [hst]
    | some s =>
      have hsmem := (batchFind_mem hb).1
      have hsurl := (batchFind_mem hb).2
      have hlookx : lookupUrl (findBySource store src) x.originalEventUrl = some x :=
        lookupUrl_self hekeys hxem
      have hhas : scrapedHas scraped x.originalEventUrl = true :=
        scrapedHas_iff.mpr ⟨s, hsmem, hsurl⟩
      have hbuniq : ∀ s' ∈ scraped, s'.originalEventUrl = x.originalEventUrl →
          s' = s := fun s' hs' hu =>
        List.inj_on_of_nodup_map hkeys hs' hsmem (by rw [hu, hsurl])
      have hIskip : ∀ e ∈ inactivesOf (findBySource store src) scraped,
          e.id = x.id → False := by
        intro e he hid
        have he' := hiduniq e (mem_inactivesOf he).1 hid
        have := (mem_inactivesOf he).2.1
        rw [he'] at this
        rw [hhas] at this
        cases this
      by_cases hd : detectEventChanges x s = true
      · have hR : writeFold (refreshWrite (findBySource store src) now) scraped x = x := by
          apply writeFold_refresh_skip
          intro s' hs' e hl hdf hid
          have he := hiduniq e (lookupUrl_mem hl).1 hid
          have hs'' : s' = s := hbuniq s' hs' (by rw [← (lookupUrl_mem hl).2, he])
          rw [he, hs''] at hdf
          rw [hd] at hdf
          cases hdf
        rw [hR]
        have hxsmem : (x, s) ∈ updsOf (findBySource store src) scraped := by
          rw [updsOf, List.mem_filterMap]
          refine ⟨s, hsmem, ?_⟩
          rw [hsurl, hlookx]
          simp [hd]
        have hU : writeFold (updWrite now)
            (updsOf (findBySource store src) scraped) x = assignUpdated x s now :=
          writeFold_upd_hit hxsmem rfl (fun p hp hid => by
            obtain ⟨hpm, _, hps, hpu⟩ := mem_updsOf hp
            have h1 := hiduniq p.1 hpm hid
            have h2 : p.2 = s := hbuniq p.2 hps (by rw [← hpu, h1])
            rw [h1, h2])
        rw [hU]
        have hI : writeFold (inactWrite now)
            (inactivesOf (findBySource store src) scraped)
            (assignUpdated x s now) = assignUpdated x s now := by
          apply writeFold_inact_skip
          intro e he hid
          exact hIskip e he hid
        rw [hI]
        unfold reconcileT
        simp only [hxsrc, beq_self_eq_true, if_true, hb, hd]
      · have hdf : detectEventChanges x s = false := by
          cases hc : detectEventChanges x s
          · rfl
          · exact absurd hc hd
        have hR : writeFold (refreshWrite (findBySource store src) now) scraped x =
            { x with lastScrapedAt := now } :=
          writeFold_refresh_hit hsmem (by rw [hsurl]; exact hlookx) hdf rfl
            (fun s' hs' e hl hid hdd => by
              have he := hiduniq e (lookupUrl_mem hl).1 hid
              rw [he])
        rw [hR]
        have hU : writeFold (updWrite now)
            (updsOf (findBySource store src) scraped)
            ({ x with lastScrapedAt := now }) = { x with lastScrapedAt := now } := by
          apply writeFold_upd_skip
          intro p hp hid
          obtain ⟨hpm, hpd, hps, hpu⟩ := mem_updsOf hp
          have h1 := hiduniq p.1 hpm hid
          have h2 : p.2 = s := hbuniq p.2 hps (by rw [← hpu, h1])
          rw [h1, h2] at hpd
          rw [hdf] at hpd
          cases hpd
        rw [hU]
        have hI : writeFold (inactWrite now)
            (inactivesOf (findBySource store src) scraped)
            ({ x with lastScrapedAt := now }) = { x with lastScrapedAt := now } := by
          apply writeFold_inact_skip
          intro e he hid
          exact hIskip e he hid
        rw [hI]
        unfold reconcileT
        simp only [hxsrc, beq_self_eq_true, if_true, hb, hdf]
        simp [hdf]
  · have hnotem : ∀ e ∈ findBySource store src, e.id = x.id → False := by
      intro e he hid
      have he' := hiduniq e he hid
      exact hxsrc (he' ▸ (hem e he).2)
    have hR : writeFold (refreshWrite (findBySource store src) now) scraped x = x := by
      apply writeFold_refresh_skip
      intro s hs e hl _ hid
      exact hnotem e (lookupUrl_mem hl).1 hid
    have hU : writeFold (updWrite now)
        (updsOf (findBySource store src) scraped) x = x := by
      apply writeFold_upd_skip
      intro p hp hid
      exact hnotem p.1 (mem_updsOf hp).1 hid
    have hI : writeFold (inactWrite now)
        (inactivesOf (findBySource store src) scraped) x = x := by
      apply writeFold_inact_skip
      intro e he hid
      exact hnotem e (mem_inactivesOf he).1 hid
    rw [hR, hU, hI]
    unfold reconcileT
    simp [hxsrc]

/-- The store after one full reconciliation pass: every pre-existing record
transformed by `reconcileT`, followed by the documents inserted for the new
classifications. -/
theorem pass1_char (store : Store) (nextId : Nat) (now : Int)
    (scraped : List EventData) (src : String)
    (hkeys : (scraped.map (fun s => s.originalEventUrl)).Nodup)
    (hekeys : ((findBySource store src).map (fun x => x.originalEventUrl)).Nodup)
    (hids : (store.map (fun x => x.id)).Nodup)
    (hfresh : ∀ x ∈ store, x.id < nextId) :
    (processScrapedEvents store nextId now scraped src).2.1 =
      store.map (reconcileT scraped now src) ++
        newDocs (newsOf (findBySource store src) scraped) nextId := by
  rw [processScrapedEvents_eq]
  rw [storeWriteFold_eq_map, storeWriteFold_eq_map, storeWriteFold_eq_map]
  rw [List.map_append, List.map_append, List.map_map, List.map_map, List.map_map]
  dsimp only
  congr 1
  · apply List.map_congr_left
    intro x hx
    exact pass1_pointwise store now scraped src hkeys hekeys hids hx
  · have hfix : ∀ y ∈ newDocs (newsOf (findBySource store src) scraped) nextId,
        writeFold (inactWrite now) (inactivesOf (findBySource store src) scraped)
          (writeFold (updWrite now) (updsOf (findBySource store src) scraped) y) = y := by
      intro y hy
      have hyid : nextId ≤ y.id := mem_newDocs_id hy
      have hUy : writeFold (updWrite now)
          (updsOf (findBySource store src) scraped) y = y := by
        apply writeFold_upd_skip
        intro p hp h
        have h1 : p.1 ∈ store := (mem_findBySource.mp (mem_updsOf hp).1).1
        have := hfresh p.1 h1
        omega
      rw [hUy]
      apply writeFold_inact_skip
      intro e he h
      have h1 : e ∈ store := (mem_findBySource.mp (mem_inactivesOf he).1).1
      have := hfresh e h1
      omega
    refine (List.map_congr_left ?_).trans (List.map_id _)
    intro y hy
    exact hfix y hy

theorem newDocs_urls (ds : List EventData) :
    ∀ nid : Nat, (newDocs ds nid).map (fun x => x.originalEventUrl) =
      ds.map (fun d => d.originalEventUrl) := by
  induction ds with
  | nil => intro nid; rfl
  | cons d rest ih =>
    intro nid
    rw [newDocs, List.map_cons, List.map_cons, ih]
    rfl

/-- The source's record set after the pass. -/
theorem findBySource_pass1 (store : Store) (nextId : Nat) (now : Int)
    (scraped : List EventData) (src : String)
    (hsrc : ∀ s ∈ scraped, s.sourceWebsite = src) :
    findBySource (store.map (reconcileT scraped now src) ++
        newDocs (newsOf (findBySource store src) scraped) nextId) src =
      (findBySource store src).map (reconcileT scraped now src) ++
        newDocs (newsOf (findBySource store src) scraped) nextId := by
  unfold findBySource
  rw [List.filter_append]
  congr 1
  · rw [List.filter_map]
    have hcg : List.filter ((fun e => e.sourceWebsite == src) ∘
          reconcileT scraped now src) store =
        List.filter (fun e => e.sourceWebsite == src) store := by
      apply List.filter_congr
      intro x _
      show ((reconcileT scraped now src x).sourceWebsite == src) =
        (x.sourceWebsite == src)
      rw [reconcileT_src hsrc]
    rw [hcg]
  · apply List.filter_eq_self.mpr
    intro nd hnd
    obtain ⟨d, hd, j, _, hx⟩ := mem_newDocs hnd
    have hds : d.sourceWebsite = src := hsrc d (mem_newsOf.mp hd).1
    rw [hx]
    show (d.sourceWebsite == src) = true
    simp [hds]

/-- Keys of the source's record set stay duplicate-free across the pass. -/
theorem em2_keys_nodup (store : Store) (nextId : Nat) (now : Int)
    (scraped : List EventData) (src : String)
    (hkeys : (scraped.map (fun s => s.originalEventUrl)).Nodup)
    (hekeys : ((findBySource store src).map (fun x => x.originalEventUrl)).Nodup) :
    ((((findBySource store src).map (reconcileT scraped now src)) ++
        newDocs (newsOf (findBySource store src) scraped) nextId).map
      (fun x => x.originalEventUrl)).Nodup := by
  rw [List.map_append, List.nodup_append]
  refine ⟨?_, ?_, ?_⟩
  · rw [List.map_map]
    have : List.map ((fun x => x.originalEventUrl) ∘ reconcileT scraped now src)
        (findBySource store src) =
        List.map (fun x => x.originalEventUrl) (findBySource store src) := by
      apply List.map_congr_left
      intro x _
      exact reconcileT_url scraped now src x
    rw [this]
    exact hekeys
  · rw [newDocs_urls]
    have hsub : (newsOf (findBySource store src) scraped).map
        (fun d => d.originalEventUrl) |>.Sublist
        (scraped.map (fun d => d.originalEventUrl)) :=
      (List.filter_sublist _).map _
    exact hkeys.sublist hsub
  · intro a ha hb
    rw [List.map_map] at ha
    obtain ⟨x, hx, hxa⟩ := List.mem_map.mp ha
    rw [newDocs_urls] at hb
    obtain ⟨d, hd, hda⟩ := List.mem_map.mp hb
    have hdn := (mem_newsOf.mp hd).2
    have : x.originalEventUrl ≠ d.originalEventUrl :=
      (lookupUrl_eq_none.mp hdn) x hx
    apply this
    have hxa' : (reconcileT scraped now src x).originalEventUrl = a := hxa
    rw [reconcileT_url] at hxa'
    rw [hxa', hda]

/-- Ids stay duplicate-free across the pass. -/
theorem s1_ids_nodup (store : Store) (nextId : Nat) (now : Int)
    (scraped : List EventData) (src : String)
    (hids : (store.map (fun x => x.id)).Nodup)
    (hfresh : ∀ x ∈ store, x.id < nextId) :
    (((store.map (reconcileT scraped now src)) ++
        newDocs (newsOf (findBySource store src) scraped) nextId).map
      (fun x => x.id)).Nodup := by
  rw [List.map_append, List.nodup_append]
  refine ⟨?_, newDocs_ids_nodup, ?_⟩
  · rw [List.map_map]
    have : List.map ((fun x => x.id) ∘ reconcileT scraped now src) store =
        List.map (fun x => x.id) store := by
      apply List.map_congr_left
      intro x _
      exact reconcileT_id scraped now src x
    rw [this]
    exact hids
  · intro a ha hb
    rw [List.map_map] at ha
    obtain ⟨x, hx, hxa⟩ := List.mem_map.mp ha
    obtain ⟨nd, hnd, hna⟩ := List.mem_map.mp hb
    have h1 := hfresh x hx
    have h2 := mem_newDocs_id hnd
    have hxa' : (reconcileT scraped now src x).id = a := hxa
    rw [reconcileT_id] at hxa'
    omega

theorem reconcileT_matched {scraped : List EventData} {now : Int} {src : String}
    {x : IEvent} {s : EventData} (hxsrc : (x.sourceWebsite == src) = true)
    (hbf : batchFind scraped x.originalEventUrl = some s) :
    reconcileT scraped now src x =
      if detectEventChanges x s then assignUpdated x s now
      else { x with lastScrapedAt := now } := by
  unfold reconcileT
  rw [if_pos hxsrc]
  simp only [hbf]

theorem reconcileT_absent {scraped : List EventData} {now : Int} {src : String}
    {x : IEvent} (hxsrc : (x.sourceWebsite == src) = true)
    (hbf : batchFind scraped x.originalEventUrl = none) :
    reconcileT scraped now src x =
      if x.status != EventStatus.inactive && x.status != EventStatus.imported then
        { x with status := .inactive, lastScrapedAt := now }
      else x := by
  unfold reconcileT
  rw [if_pos hxsrc]
  simp only [hbf]

/-- After the pass, every fresh record's key resolves to a stored record
whose compared fields match it. -/
theorem pass2_lookup_unchanged (store : Store) (nextId : Nat) (now : Int)
    (scraped : List EventData) (src : String)
    (hkeys : (scraped.map (fun s => s.originalEventUrl)).Nodup)
    (hekeys : ((findBySource store src).map (fun x => x.originalEventUrl)).Nodup) :
    ∀ s ∈ scraped, ∃ e2,
      lookupUrl ((findBySource store src).map (reconcileT scraped now src) ++
        newDocs (newsOf (findBySource store src) scraped) nextId)
        s.originalEventUrl = some e2 ∧
      detectEventChanges e2 s = false := by
  intro s hs
  cases hl : lookupUrl (findBySource store src) s.originalEventUrl with
  | some x =>
    have hxm := (lookupUrl_mem hl).1
    have hxu := (lookupUrl_mem hl).2
    have hxsrc : x.sourceWebsite = src := (mem_findBySource.mp hxm).2
    have hbf : batchFind scraped x.originalEventUrl = some s := by
      rw [hxu]; exact batchFind_self hkeys hs
    refine ⟨reconcileT scraped now src x, ?_, ?_⟩
    · have hmem2 : reconcileT scraped now src x ∈
          (findBySource store src).map (reconcileT scraped now src) ++
          newDocs (newsOf (findBySource store src) scraped) nextId :=
        List.mem_append_left _ (List.mem_map_of_mem _ hxm)
      have hurl2 : (reconcileT scraped now src x).originalEventUrl =
          s.originalEventUrl := by
        rw [reconcileT_url, hxu]
      rw [← hurl2]
      exact lookupUrl_self (em2_keys_nodup store nextId now scraped src hkeys hekeys)
        hmem2
    · rw [reconcileT_matched (by simp [hxsrc]) hbf]
      by_cases hd : detectEventChanges x s = true
      · rw [if_pos hd]
        exact detectEventChanges_assign x s now
      · rw [if_neg hd, detectEventChanges_refresh]
        cases hc : detectEventChanges x s
        · rfl
        · exact absurd hc hd
  | none =>
    have hdn : s ∈ newsOf (findBySource store src) scraped :=
      mem_newsOf.mpr ⟨hs, hl⟩
    obtain ⟨j, hj, hm⟩ :=
      @newDocs_of_mem (newsOf (findBySource store src) scraped) nextId s hdn
    refine ⟨newFromData s j, ?_, detectEventChanges_new s j⟩
    have hmem2 : newFromData s j ∈
        (findBySource store src).map (reconcileT scraped now src) ++
        newDocs (newsOf (findBySource store src) scraped) nextId :=
      List.mem_append_right _ hm
    have hurl : (newFromData s j).originalEventUrl = s.originalEventUrl := rfl
    rw [← hurl]
    exact lookupUrl_self (em2_keys_nodup store nextId now scraped src hkeys hekeys)
      hmem2

/-- After the pass, every stored record of the source absent from the fresh
set is `inactive` or `imported`. -/
theorem pass2_absent_terminal (store : Store) (nextId : Nat) (now : Int)
    (scraped : List EventData) (src : String) :
    ∀ x2 ∈ (findBySource store src).map (reconcileT scraped now src) ++
        newDocs (newsOf (findBySource store src) scraped) nextId,
      scrapedHas scraped x2.originalEventUrl = false →
      x2.status = .inactive ∨ x2.status = .imported := by
  intro x2 hx2 hhas
  rcases List.mem_append.mp hx2 with h | h
  · obtain ⟨x, hx, hTx⟩ := List.mem_map.mp h
    have hxsrc : x.sourceWebsite = src := (mem_findBySource.mp hx).2
    have hbf : batchFind scraped x.originalEventUrl = none := by
      apply scrapedHas_false_iff.mp
      rw [← reconcileT_url scraped now src x, hTx]
      exact hhas
    rw [← hTx, reconcileT_absent (by simp [hxsrc]) hbf]
    by_cases hst : (x.status != EventStatus.inactive &&
        x.status != EventStatus.imported) = true
    · rw [if_pos hst]
      exact Or.inl rfl
    · rw [if_neg hst]
      by_cases h1 : x.status = .inactive
      · exact Or.inl h1
      · by_cases h2 : x.status = .imported
        · exact Or.inr h2
        · refine absurd ?_ hst
          rw [Bool.and_eq_true]
          exact ⟨by simp [h1], by simp [h2]⟩
  · obtain ⟨d, hd, j, _, hx⟩ := mem_newDocs h
    exfalso
    have : scrapedHas scraped x2.originalEventUrl = true := by
      apply scrapedHas_iff.mpr
      refine ⟨d, (mem_newsOf.mp hd).1, ?_⟩
      rw [hx]
      rfl
    rw [hhas] at this
    cases this

/-- The second pass's refresh saves, seen from one store entry: exactly the
matched records of the source get their `lastScrapedAt` refreshed. -/
theorem pass2_refresh_pointwise {s1 : Store} {now2 : Int}
    {scraped : List EventData} {src : String}
    (hkeys : (scraped.map (fun s => s.originalEventUrl)).Nodup)
    (hk2 : ((findBySource s1 src).map (fun x => x.originalEventUrl)).Nodup)
    (hids1 : (s1.map (fun x => x.id)).Nodup)
    (hA : ∀ s ∈ scraped, ∀ e,
      lookupUrl (findBySource s1 src) s.originalEventUrl = some e →
      detectEventChanges e s = false)
    {y : IEvent} (hy : y ∈ s1) :
    writeFold (refreshWrite (findBySource s1 src) now2) scraped y =
      if y.sourceWebsite == src && scrapedHas scraped y.originalEventUrl then
        { y with lastScrapedAt := now2 } else y := by
  have hiduniq : ∀ e ∈ findBySource s1 src, e.id = y.id → e = y := fun e he hid =>
    store_id_inj hids1 (mem_findBySource.mp he).1 hy hid
  by_cases hcond : (y.sourceWebsite == src &&
      scrapedHas scraped y.originalEventUrl) = true
  · rw [if_pos hcond]
    rw [Bool.and_eq_true] at hcond
    have hysrc : y.sourceWebsite = src := by simpa using hcond.1
    have hym : y ∈ findBySource s1 src := mem_findBySource.mpr ⟨hy, hysrc⟩
    obtain ⟨st, hst, hstu⟩ := scrapedHas_iff.mp hcond.2
    have hlook : lookupUrl (findBySource s1 src) st.originalEventUrl = some y := by
      rw [hstu]; exact lookupUrl_self hk2 hym
    have hdet : detectEventChanges y st = false := hA st hst y hlook
    exact writeFold_refresh_hit hst hlook hdet rfl (fun s' hs' e hl hid hdd => by
      rw [hiduniq e (lookupUrl_mem hl).1 hid])
  · rw [if_neg hcond]
    apply writeFold_refresh_skip
    intro s hs e hl hdf hid
    have he := hiduniq e (lookupUrl_mem hl).1 hid
    apply hcond
    rw [Bool.and_eq_true]
    constructor
    · have hes : e.sourceWebsite = src := (mem_findBySource.mp (lookupUrl_mem hl).1).2
      rw [he] at hes
      simp [hes]
    · apply scrapedHas_iff.mpr
      exact ⟨s, hs, by rw [← (lookupUrl_mem hl).2, he]⟩

/-- C6: reconciliation is idempotent. Against a store with duplicate-free
natural keys for the source, duplicate-free ids, ids below `nextId`, and a
batch of duplicate-free keys all from the source: a second run of
`processScrapedEvents` with the same batch against the first run's store
classifies nothing (no new, no updated, no inactive records), appends no
status change, and its only store mutation is refreshing `lastScrapedAt` on
the source's records matched by the batch. -/
theorem reconcile_idempotent (store : Store) (nextId : Nat) (now1 now2 : Int)
    (scraped : List EventData) (src : String)
    (hsrc : ∀ s ∈ scraped, s.sourceWebsite = src)
    (hkeys : (scraped.map (fun s => s.originalEventUrl)).Nodup)
    (hekeys : ((findBySource store src).map (fun x => x.originalEventUrl)).Nodup)
    (hids : (store.map (fun x => x.id)).Nodup)
    (hfresh : ∀ x ∈ store, x.id < nextId) :
    (processScrapedEvents (processScrapedEvents store nextId now1 scraped src).2.1
        (processScrapedEvents store nextId now1 scraped src).2.2
        now2 scraped src).1.newEvents = [] ∧
    (processScrapedEvents (processScrapedEvents store nextId now1 scraped src).2.1
        (processScrapedEvents store nextId now1 scraped src).2.2
        now2 scraped src).1.updatedEvents = [] ∧
    (processScrapedEvents (processScrapedEvents store nextId now1 scraped src).2.1
        (processScrapedEvents store nextId now1 scraped src).2.2
        now2 scraped src).1.inactiveEvents = [] ∧
    (processScrapedEvents (processScrapedEvents store nextId now1 scraped src).2.1
        (processScrapedEvents store nextId now1 scraped src).2.2
        now2 scraped src).1.statusChanges = [] ∧
    (processScrapedEvents (processScrapedEvents store nextId now1 scraped src).2.1
        (processScrapedEvents store nextId now1 scraped src).2.2
        now2 scraped src).2.1 =
      (processScrapedEvents store nextId now1 scraped src).2.1.map
        (fun y =>
          if y.sourceWebsite == src && scrapedHas scraped y.originalEventUrl then
            { y with lastScrapedAt := now2 } else y) := by
  have hchar := pass1_char store nextId now1 scraped src hkeys hekeys hids hfresh
  have hem2 : findBySource (processScrapedEvents store nextId now1 scraped src).2.1
      src =
      (findBySource store src).map (reconcileT scraped now1 src) ++
        newDocs (newsOf (findBySource store src) scraped) nextId := by
    rw [hchar]
    exact findBySource_pass1 store nextId now1 scraped src hsrc
  have hk2 : ((findBySource (processScrapedEvents store nextId now1 scraped src).2.1
      src).map (fun x => x.originalEventUrl)).Nodup := by
    rw [hem2]
    exact em2_keys_nodup store nextId now1 scraped src hkeys hekeys
  have hids1 : ((processScrapedEvents store nextId now1 scraped src).2.1.map
      (fun x => x.id)).Nodup := by
    rw [hchar]
    exact s1_ids_nodup store nextId now1 scraped src hids hfresh
  have hEA := pass2_lookup_unchanged store nextId now1 scraped src hkeys hekeys
  have hA : ∀ s ∈ scraped, ∀ e,
      lookupUrl (findBySource (processScrapedEvents store nextId now1 scraped
        src).2.1 src) s.originalEventUrl = some e →
      detectEventChanges e s = false := by
    intro s hs e hl
    rw [hem2] at hl
    obtain ⟨e2, hl2, hd2⟩ := hEA s hs
    rw [hl2] at hl
    injection hl with h
    exact h ▸ hd2
  have hnews : newsOf (findBySource (processScrapedEvents store nextId now1 scraped
      src).2.1 src) scraped = [] := by
    apply List.filter_eq_nil.mpr
    intro s hs
    rw [hem2]
    obtain ⟨e2, hl2, _⟩ := hEA s hs
    simp [hl2]
  have hupds : updsOf (findBySource (processScrapedEvents store nextId now1 scraped
      src).2.1 src) scraped = [] := by
    apply List.filterMap_eq_nil.mpr
    intro s hs
    rw [hem2]
    obtain ⟨e2, hl2, hd2⟩ := hEA s hs
    simp [hl2, hd2]
  have hinacts : inactivesOf (findBySource (processScrapedEvents store nextId now1
      scraped src).2.1 src) scraped = [] := by
    apply List.filter_eq_nil.mpr
    intro x2 hx2
    rw [hem2] at hx2
    have hB := pass2_absent_terminal store nextId now1 scraped src x2 hx2
    by_cases hh : scrapedHas scraped x2.originalEventUrl = true
    · simp [hh]
    · have hh' : scrapedHas scraped x2.originalEventUrl = false := by
        simpa using hh
      rcases hB hh' with h | h <;> simp [hh', h]
  rw [processScrapedEvents_eq
    (processScrapedEvents store nextId now1 scraped src).2.1
    (processScrapedEvents store nextId now1 scraped src).2.2 now2 scraped src]
  dsimp only
  rw [hnews, hupds, hinacts]
  refine ⟨rfl, rfl, rfl, rfl, ?_⟩
  simp only [storeWriteFold, newDocs, List.append_nil]
  rw [storeWriteFold_eq_map]
  apply List.map_congr_left
  intro y hy
  exact pass2_refresh_pointwise hkeys hk2 hids1 hA hy

theorem reconcile_idempotent_witness :
    (∀ s ∈ [dW], s.sourceWebsite = "s1") ∧
    ((processScrapedEvents (processScrapedEvents ([] : Store) 0 5 [dW] "s1").2.1
        (processScrapedEvents ([] : Store) 0 5 [dW] "s1").2.2
        9 [dW] "s1").1.newEvents = [] ∧
     (processScrapedEvents (processScrapedEvents ([] : Store) 0 5 [dW] "s1").2.1
        (processScrapedEvents ([] : Store) 0 5 [dW] "s1").2.2
        9 [dW] "s1").1.updatedEvents = [] ∧
     (processScrapedEvents (processScrapedEvents ([] : Store) 0 5 [dW] "s1").2.1
        (processScrapedEvents ([] : Store) 0 5 [dW] "s1").2.2
        9 [dW] "s1").1.inactiveEvents = [] ∧
     (processScrapedEvents (processScrapedEvents ([] : Store) 0 5 [dW] "s1").2.1
        (processScrapedEvents ([] : Store) 0 5 [dW] "s1").2.2
        9 [dW] "s1").1.statusChanges = [] ∧
     (processScrapedEvents (processScrapedEvents ([] : Store) 0 5 [dW] "s1").2.1
        (processScrapedEvents ([] : Store) 0 5 [dW] "s1").2.2
        9 [dW] "s1").2.1 =
       (processScrapedEvents ([] : Store) 0 5 [dW] "s1").2.1.map
         (fun y =>
           if y.sourceWebsite == "s1" && scrapedHas [dW] y.originalEventUrl then
             { y with lastScrapedAt := 9 } else y)) :=
  ⟨by decide,
   reconcile_idempotent [] 0 5 9 [dW] "s1" (by decide) (by decide) (by decide)
     (by decide) (by decide)⟩

end EventAgg
